import Mathlib

/-!
Verification development for the lambda-money-manager repository.

The Python sources are shallowly embedded:
  - DynamoDB items are association lists of attribute name to value
    (string or exact rational standing for Python float / DynamoDB Decimal);
    a Python None is never a stored value, absence of the key models absence
    of the attribute, and write-path inputs use Option to model None.
  - Each storage-touching operation takes an extra `svcErr : Option String`
    oracle: `some e` models the boto3 call raising an exception with text e,
    `none` models a successful remote call.
  - Functions that can let a Python exception escape are embedded in
    Except String; a tagged {success: false, error} dictionary is a normal
    return value, distinct from Except.error which models an uncaught raise.
-/

namespace LambdaMoney

/-- Attribute value stored in the table: a string or a number
(Python float / DynamoDB Decimal modelled exactly as a rational). -/
inductive DVal where
  | str : String → DVal
  | num : ℚ → DVal
deriving DecidableEq, Repr

/-- One stored item: association list from attribute name to value. -/
abbrev Item := List (String × DVal)

/-- A table is a list of items (each item carries its own key attribute). -/
abbrev Table := List Item

/-- Look up an attribute by name (first binding wins). -/
def getAttr : Item → String → Option DVal
  | [], _ => none
  | (k', v) :: rest, k => if k' = k then some v else getAttr rest k

/-- Set an attribute: replace the first binding in place, or append. -/
def setAttr : Item → String → DVal → Item
  | [], k, v => [(k, v)]
  | (k', v') :: rest, k, v =>
      if k' = k then (k, v) :: rest else (k', v') :: setAttr rest k v

/-- Apply a list of attribute assignments left to right
(the semantics of a DynamoDB SET update expression). -/
def applyUpdates (r : Item) (us : List (String × DVal)) : Item :=
  us.foldl (fun it kv => setAttr it kv.1 kv.2) r

/-- Result of a write-style operation (create / update / delete),
modelling the tagged {success, data or error} dictionaries of
src/Models/DynamoDBModel.py. -/
structure WriteResult where
  success : Bool
  data : Item := []
  error : Option String := none
deriving DecidableEq, Repr

/-- Result of a scan-style operation (list_all / query_by_*),
modelling {success, data, count} or {success, error}. -/
structure ScanResult where
  success : Bool
  data : List Item := []
  count : Nat := 0
  error : Option String := none
deriving DecidableEq, Repr

/-- A write operation returns its dictionary and leaves the table in a new
state; the pair packages both. -/
structure UpdateOut where
  res : WriteResult
  table : Table
deriving DecidableEq, Repr

/-- DynamoDB update_item semantics: find the first item whose key attribute
keyName equals keyVal and apply the SET assignments to it; if no such item
exists, DynamoDB upserts a fresh item holding the key plus the assignments.
Returns the new table and the full post-update item (ReturnValues ALL_NEW). -/
def updateItemSvc (keyName keyVal : String) (us : List (String × DVal)) :
    Table → Table × Item
  | [] =>
      let it := applyUpdates [(keyName, DVal.str keyVal)] us
      ([it], it)
  | r :: rest =>
      if getAttr r keyName = some (DVal.str keyVal) then
        let r' := applyUpdates r us
        (r' :: rest, r')
      else
        let p := updateItemSvc keyName keyVal us rest
        (r :: p.1, p.2)

/-- SET assignment list built by the update loop of
src/Models/DynamoDBModel.py lines 90-99 and the textually identical loop of
src/Services/SendLineService.py lines 133-142: updated_at first, then every
kwargs entry whose key is not the primary-key field and whose value is not
None, in order. keyField is "pk" for DynamoDBModel and "lmn" for
SendLineService. -/
def buildUpdates (keyField : String) (ts : String)
    (kwargs : List (String × Option DVal)) : List (String × DVal) :=
  ("updated_at", DVal.str ts) ::
    kwargs.filterMap (fun kv =>
      if kv.1 ≠ keyField then kv.2.map (fun v => (kv.1, v)) else none)

/-- Shared body of DynamoDBModel.update and
SendLineService.update_line_transaction (the two are line-for-line
identical up to the key field name). svcErr models an exception raised by
the remote call, caught by the except clause. A SET expression that names
updated_at twice (kwargs containing a non-null updated_at) is rejected by
DynamoDB as overlapping document paths; that rejection is also caught. -/
def updateOp (keyField : String) (tbl : Table) (ts keyVal : String)
    (kwargs : List (String × Option DVal)) (svcErr : Option String) :
    UpdateOut :=
  match svcErr with
  | some e => ⟨⟨false, [], some e⟩, tbl⟩
  | none =>
      let us := buildUpdates keyField ts kwargs
      if (us.map Prod.fst).Nodup then
        let p := updateItemSvc keyField keyVal us tbl
        ⟨⟨true, p.2, none⟩, p.1⟩
      else
        ⟨⟨false, [], some "ValidationException: overlapping document paths"⟩, tbl⟩

/-- DynamoDBModel.update (src/Models/DynamoDBModel.py lines 86-117). -/
def dynUpdate (tbl : Table) (ts pk : String)
    (kwargs : List (String × Option DVal)) (svcErr : Option String) :
    UpdateOut :=
  updateOp "pk" tbl ts pk kwargs svcErr

/-- SendLineService.update_line_transaction
(src/Services/SendLineService.py lines 116-162). -/
def updateLineTransaction (tbl : Table) (ts lmn : String)
    (kwargs : List (String × Option DVal)) (svcErr : Option String) :
    UpdateOut :=
  updateOp "lmn" tbl ts lmn kwargs svcErr

/-- DynamoDBModel.delete (src/Models/DynamoDBModel.py lines 119-149).
Soft mode issues update_item SET deleted_at = now; hard mode removes the
item and returns only the key. -/
def dynDelete (tbl : Table) (ts pk : String) (soft : Bool)
    (svcErr : Option String) : UpdateOut :=
  match svcErr with
  | some e => ⟨⟨false, [], some e⟩, tbl⟩
  | none =>
      if soft then
        let p := updateItemSvc "pk" pk [("deleted_at", DVal.str ts)] tbl
        ⟨⟨true, p.2, none⟩, p.1⟩
      else
        ⟨⟨true, [("pk", DVal.str pk)], none⟩,
          tbl.filter (fun r => decide (getAttr r "pk" ≠ some (DVal.str pk)))⟩

/-- The item dictionary literal of DynamoDBModel.create
(src/Models/DynamoDBModel.py lines 38-47) before the None filter:
deleted_at is hardcoded to None, the optional model fields keep their
Python Optional values. -/
def createRawItem (pk ts : String) (tt cat desc : Option String)
    (amt : Option ℚ) : List (String × Option DVal) :=
  [("pk", some (DVal.str pk)),
   ("created_at", some (DVal.str ts)),
   ("updated_at", some (DVal.str ts)),
   ("deleted_at", none),
   ("transaction_type", tt.map DVal.str),
   ("category", cat.map DVal.str),
   ("description", desc.map DVal.str),
   ("amount", amt.map DVal.num)]

/-- The None-filter comprehension of DynamoDBModel.create line 50:
item = {k: v for k, v in item.items() if v is not None}. -/
def createItem (pk ts : String) (tt cat desc : Option String)
    (amt : Option ℚ) : Item :=
  (createRawItem pk ts tt cat desc amt).filterMap
    (fun kv => kv.2.map (fun v => (kv.1, v)))

/-- DynamoDB put_item: replace the first item with the same key attribute
value, or append the new item. -/
def putItem (keyName : String) (it : Item) : Table → Table
  | [] => [it]
  | r :: rest =>
      if getAttr r keyName = getAttr it keyName then it :: rest
      else r :: putItem keyName it rest

/-- DynamoDBModel.create (src/Models/DynamoDBModel.py lines 34-63). -/
def dynCreate (tbl : Table) (pk ts : String) (tt cat desc : Option String)
    (amt : Option ℚ) (svcErr : Option String) : UpdateOut :=
  let item := createItem pk ts tt cat desc amt
  match svcErr with
  | some e => ⟨⟨false, [], some e⟩, tbl⟩
  | none => ⟨⟨true, item, none⟩, putItem "pk" item tbl⟩

/-- DynamoDBModel.list_all (src/Models/DynamoDBModel.py lines 151-172):
full scan; with include_deleted false the filter expression
attribute_not_exists(deleted_at) drops every item possessing a deleted_at
attribute, regardless of its value. -/
def listAll (tbl : Table) (include_deleted : Bool) (svcErr : Option String) :
    ScanResult :=
  match svcErr with
  | some e => ⟨false, [], 0, some e⟩
  | none =>
      let items :=
        if include_deleted then tbl
        else tbl.filter (fun r => decide (getAttr r "deleted_at" = none))
      ⟨true, items, items.length, none⟩

/-- DynamoDBModel.query_by_transaction_type
(src/Models/DynamoDBModel.py lines 174-193). -/
def queryByTransactionType (tbl : Table) (tt : String)
    (svcErr : Option String) : ScanResult :=
  match svcErr with
  | some e => ⟨false, [], 0, some e⟩
  | none =>
      let items := tbl.filter (fun r =>
        decide (getAttr r "transaction_type" = some (DVal.str tt)) &&
        decide (getAttr r "deleted_at" = none))
      ⟨true, items, items.length, none⟩

/-- DynamoDBModel.query_by_category
(src/Models/DynamoDBModel.py lines 195-214). -/
def queryByCategory (tbl : Table) (cat : String)
    (svcErr : Option String) : ScanResult :=
  match svcErr with
  | some e => ⟨false, [], 0, some e⟩
  | none =>
      let items := tbl.filter (fun r =>
        decide (getAttr r "category" = some (DVal.str cat)) &&
        decide (getAttr r "deleted_at" = none))
      ⟨true, items, items.length, none⟩

/-- Zero-padded decimal rendering, as Python str formatting inside
datetime.isoformat uses. -/
def padNum (w n : Nat) : String :=
  let s := toString n
  String.mk (List.replicate (w - s.length) '0') ++ s

/-- datetime(year, month, 1).isoformat() for a valid date: the time part is
midnight with no microseconds, so the rendering is
YYYY-MM-01T00:00:00. -/
def isoOfFirst (y m : Nat) : String :=
  padNum 4 y ++ "-" ++ padNum 2 m ++ "-01T00:00:00"

/-- The validity check performed by the datetime constructor: Python
datetime(y, m, 1) raises ValueError unless 1 <= y <= 9999 and
1 <= m <= 12 (day 1 is always valid). -/
def validYM (y m : Nat) : Bool :=
  decide (1 ≤ y) && decide (y ≤ 9999) && decide (1 ≤ m) && decide (m ≤ 12)

/-- Lexicographic strict comparison of character lists, the order DynamoDB
applies to string attributes (byte order of the UTF-8 encoding; on the
ASCII timestamps used here it coincides with code point order). -/
def charListLt : List Char → List Char → Bool
  | [], [] => false
  | [], _ :: _ => true
  | _ :: _, [] => false
  | a :: as, b :: bs => if a < b then true else if a = b then charListLt as bs else false

/-- Lexicographic non-strict comparison of character lists. -/
def charListLe (a b : List Char) : Bool :=
  charListLt a b || decide (a = b)

/-- The scan filter of Money.get_monthly_summary line 112:
created_at BETWEEN :start_date AND :end_date AND
attribute_not_exists(deleted_at). DynamoDB BETWEEN on strings is an
inclusive lexicographic range test at both ends; an absent or
non-string created_at never matches. -/
def monthlyMatch (startIso stopIso : String) (r : Item) : Bool :=
  (match getAttr r "created_at" with
   | some (DVal.str c) => charListLe startIso.data c.data && charListLe c.data stopIso.data
   | _ => false) &&
  decide (getAttr r "deleted_at" = none)

/-- The exclusive-end interval test asserted by the specification for the
monthly summary: created_at in the half-open range
from the first instant of the month, the first instant of the next month
excluded. Written from the claim wording, to be compared with
monthlyMatch. -/
def claimHalfOpen (startIso stopIso : String) (r : Item) : Bool :=
  (match getAttr r "created_at" with
   | some (DVal.str c) => charListLe startIso.data c.data && charListLt c.data stopIso.data
   | _ => false) &&
  decide (getAttr r "deleted_at" = none)

/-- The income/expense bucket accumulators of
Money.get_monthly_summary lines 122-125. -/
structure Buckets where
  income_total : ℚ
  expense_total : ℚ
  income_count : Nat
  expense_count : Nat
deriving DecidableEq, Repr

/-- The transaction_type read of line 129:
record.get('transaction_type', '') compared against the two tags; a
missing or non-string value never equals either tag, which the default
empty string models. -/
def ttagOf (r : Item) : String :=
  match getAttr r "transaction_type" with
  | some (DVal.str s) => s
  | _ => ""

/-- One iteration of the aggregation loop of
Money.get_monthly_summary lines 127-136. amount = record.get('amount', 0)
or 0 leaves a non-empty string value as a string, and the subsequent +=
raises TypeError (caught by the surrounding try) when the record falls in
a recognised bucket; an empty string is falsy and becomes 0; an absent
amount becomes 0. -/
def bucketStep (acc : Buckets) (r : Item) : Except String Buckets :=
  let tt := ttagOf r
  match getAttr r "amount" with
  | some (DVal.str s) =>
      if s = "" then
        if tt = "収入" then
          Except.ok ⟨acc.income_total, acc.expense_total,
            acc.income_count + 1, acc.expense_count⟩
        else if tt = "支出" then
          Except.ok ⟨acc.income_total, acc.expense_total,
            acc.income_count, acc.expense_count + 1⟩
        else Except.ok acc
      else if tt = "収入" ∨ tt = "支出" then
        Except.error "TypeError: unsupported operand type for +"
      else Except.ok acc
  | mv =>
      let q : ℚ := match mv with
        | some (DVal.num q) => q
        | _ => 0
      if tt = "収入" then
        Except.ok ⟨acc.income_total + q, acc.expense_total,
          acc.income_count + 1, acc.expense_count⟩
      else if tt = "支出" then
        Except.ok ⟨acc.income_total, acc.expense_total + q,
          acc.income_count, acc.expense_count + 1⟩
      else Except.ok acc

/-- The aggregation loop over the matched records. -/
def bucketsOf : List Item → Buckets → Except String Buckets
  | [], acc => Except.ok acc
  | r :: rest, acc =>
      match bucketStep acc r with
      | Except.error e => Except.error e
      | Except.ok acc' => bucketsOf rest acc'

/-- The success dictionary of Money.get_monthly_summary lines 138-148. -/
structure MonthlySummaryOk where
  year : Nat
  month : Nat
  income_total : ℚ
  expense_total : ℚ
  net_amount : ℚ
  income_count : Nat
  expense_count : Nat
  total_records : Nat
deriving DecidableEq, Repr

/-- Return value of the try body: success dictionary or the tagged failure
built by the except clause. -/
inductive MonthlyResult where
  | ok (s : MonthlySummaryOk)
  | fail (error : String)
deriving DecidableEq, Repr

/-- The end date computed at Money.get_monthly_summary lines 104-107:
datetime(year + 1, 1, 1) when month = 12, else datetime(year, month + 1, 1),
rendered by isoformat. -/
def monthStopIso (y m : Nat) : String :=
  if m = 12 then isoOfFirst (y + 1) 1 else isoOfFirst y (m + 1)

/-- Money.get_monthly_summary (src/Models/Money.py lines 90-153).
The two datetime constructions at lines 103-107 run before the try
block, so a ValueError from an out-of-range year or month escapes the
function; that uncaught raise is the Except.error case. Inside the try,
a raised scan exception (svcErr) or aggregation TypeError is caught and
returned as the tagged failure dictionary. -/
def getMonthlySummary (tbl : Table) (y m : Nat) (svcErr : Option String) :
    Except String MonthlyResult :=
  if ¬ validYM y m = true then
    Except.error "ValueError: year or month out of range"
  else if m = 12 ∧ ¬ validYM (y + 1) 1 = true then
    Except.error "ValueError: year or month out of range"
  else
    match svcErr with
    | some e => Except.ok (MonthlyResult.fail e)
    | none =>
        let records := tbl.filter (monthlyMatch (isoOfFirst y m) (monthStopIso y m))
        match bucketsOf records ⟨0, 0, 0, 0⟩ with
        | Except.error e => Except.ok (MonthlyResult.fail e)
        | Except.ok b =>
            Except.ok (MonthlyResult.ok
              ⟨y, m, b.income_total, b.expense_total,
               b.income_total - b.expense_total,
               b.income_count, b.expense_count, records.length⟩)

/-- The records selected by the monthly scan. -/
def monthlyRecords (tbl : Table) (y m : Nat) : List Item :=
  tbl.filter (monthlyMatch (isoOfFirst y m) (monthStopIso y m))

/-- Start code points of the decimal-digit runs (general category Nd) of
Unicode 15.0. Every Nd character lies in a run of ten consecutive code
points digit-zero..digit-nine; the mathematical digits 1D7CE..1D7FF are
listed as their five runs. Python re's shorthand class \d on a str
pattern matches exactly the Nd characters, and float() accepts them,
reading each by its position within its run — e.g. the full-width digits
FF10..FF19. -/
def ndRangeStarts : List Nat :=
  [0x0030, 0x0660, 0x06F0, 0x07C0, 0x0966, 0x09E6, 0x0A66, 0x0AE6,
   0x0B66, 0x0BE6, 0x0C66, 0x0CE6, 0x0D66, 0x0DE6, 0x0E50, 0x0ED0,
   0x0F20, 0x1040, 0x1090, 0x17E0, 0x1810, 0x1946, 0x19D0, 0x1A80,
   0x1A90, 0x1B50, 0x1BB0, 0x1C40, 0x1C50, 0xA620, 0xA8D0, 0xA900,
   0xA9D0, 0xA9F0, 0xAA50, 0xABF0, 0xFF10, 0x104A0, 0x10D30, 0x11066,
   0x110F0, 0x11136, 0x111D0, 0x112F0, 0x11450, 0x114D0, 0x11650,
   0x116C0, 0x11730, 0x118E0, 0x11950, 0x11C50, 0x11D50, 0x11DA0,
   0x11F50, 0x16A60, 0x16AC0, 0x16B50, 0x1D7CE, 0x1D7D8, 0x1D7E2,
   0x1D7EC, 0x1D7F6, 0x1E140, 0x1E2F0, 0x1E4F0, 0x1E950, 0x1FBF0]

/-- Decimal value of a Unicode decimal digit: its offset within its Nd
run; none for a non-digit. -/
def pyDigitVal? (c : Char) : Option Nat :=
  ndRangeStarts.findSome? (fun b =>
    if b ≤ c.toNat ∧ c.toNat < b + 10 then some (c.toNat - b) else none)

/-- The digit class of Python re's \d on str patterns: any Unicode
decimal digit (category Nd), not only ASCII 0-9. -/
def pyIsDigit (c : Char) : Bool :=
  (pyDigitVal? c).isSome

/-- Decimal digit string to natural number (most significant first), each
character read by its Unicode decimal value, as Python float() does. -/
def digitsToNat (l : List Char) : Nat :=
  l.foldl (fun n c => 10 * n + (pyDigitVal? c).getD 0) 0

/-- Python float() restricted to the unsigned decimal literals this system
feeds it (runs of Unicode decimal digits with an optional ASCII dot):
digits, digits dot digits, dot digits, digits dot. Anything else raises
ValueError, modelled as none. The numeric value is kept exactly as a
rational. -/
def pyFloat? (l : List Char) : Option ℚ :=
  let ip := l.takeWhile pyIsDigit
  match l.dropWhile pyIsDigit with
  | [] => if ip.isEmpty then none else some (digitsToNat ip : ℚ)
  | '.' :: fs =>
      if fs.all pyIsDigit && (!ip.isEmpty || !fs.isEmpty) then
        some ((digitsToNat ip : ℚ) + (digitsToNat fs : ℚ) / (10 : ℚ) ^ fs.length)
      else none
  | _ => none

/-- Greedy repetition of the comma-group subpattern (?:,\d{3})* :
consume as many comma-then-three-digits blocks as possible, returning the
consumed prefix and the remainder. -/
def takeGroups : List Char → List Char × List Char
  | ',' :: a :: b :: c :: rest =>
      if pyIsDigit a && pyIsDigit b && pyIsDigit c then
        let p := takeGroups rest
        (',' :: a :: b :: c :: p.1, p.2)
      else ([], ',' :: a :: b :: c :: rest)
  | l => ([], l)

/-- The optional fractional subpattern (?:\.\d+)? : a dot followed by at
least one digit, matched greedily, or nothing. -/
def takeFrac (l : List Char) : List Char :=
  match l with
  | c :: rest =>
      if c = '.' then
        let ds := rest.takeWhile pyIsDigit
        if ds.isEmpty then [] else '.' :: ds
      else []
  | [] => []

/-- Attempt of the pattern \d+(?:,\d{3})*(?:\.\d+)? at the start of the
text: a nonempty greedy digit run, then greedy comma groups, then the
optional fraction. Returns the matched characters. -/
def matchAt (l : List Char) : Option (List Char) :=
  let ds := l.takeWhile pyIsDigit
  if ds.isEmpty then none
  else
    let r1 := l.dropWhile pyIsDigit
    let p := takeGroups r1
    some (ds ++ p.1 ++ takeFrac p.2)

/-- re.search of the amount pattern in _parse_message line 185: try the
pattern at each position from the left, returning the first (leftmost)
match. -/
def reSearchNum : List Char → Option (List Char)
  | [] => none
  | c :: rest =>
      match matchAt (c :: rest) with
      | some m => some m
      | none => reSearchNum rest

/-- The underlying query of Money.get_total_amount lines 70-73:
Python's truthiness test if transaction_type: sends both None and the
empty string to the else branch, so the transaction-type query runs only
for a non-empty filter, and list_all() (active records only) otherwise. -/
def totalSource (tbl : Table) (tt : Option String) (svcErr : Option String) :
    ScanResult :=
  match tt with
  | some t =>
      if t = "" then listAll tbl false svcErr
      else queryByTransactionType tbl t svcErr
  | none => listAll tbl false svcErr

/-- The summation loop of Money.get_total_amount lines 78-81: records
whose amount attribute is absent contribute nothing; a present numeric
amount is added via float(); a present string amount goes through float()
too, raising (uncaught — get_total_amount has no try) when the string is
not a numeral. -/
def totalLoop : List Item → ℚ → Except String ℚ
  | [], acc => Except.ok acc
  | it :: rest, acc =>
      match getAttr it "amount" with
      | none => totalLoop rest acc
      | some (DVal.num q) => totalLoop rest (acc + q)
      | some (DVal.str s) =>
          match pyFloat? s.data with
          | some q => totalLoop rest (acc + q)
          | none => Except.error "ValueError: could not convert string to float"

/-- Return value of Money.get_total_amount: the verbatim underlying
failure dictionary, or the success dictionary with total, record count
and the filter used. -/
inductive TotalResult where
  | fail (r : ScanResult)
  | ok (total_amount : ℚ) (record_count : Nat) (transaction_type : Option String)
deriving DecidableEq, Repr

/-- Money.get_total_amount (src/Models/Money.py lines 60-88). -/
def getTotalAmount (tbl : Table) (tt : Option String)
    (svcErr : Option String) : Except String TotalResult :=
  let result := totalSource tbl tt svcErr
  if result.success = false then Except.ok (TotalResult.fail result)
  else
    match totalLoop result.data 0 with
    | Except.error e => Except.error e
    | Except.ok total =>
        Except.ok (TotalResult.ok total result.data.length tt)

/-- Spec-side description of the sum: amounts of exactly the records in
which a numeric amount is present. -/
def sumPresentAmounts (items : List Item) : ℚ :=
  (items.filterMap (fun it =>
    match getAttr it "amount" with
    | some (DVal.num q) => some q
    | _ => none)).sum

/-- Python substring membership: keyword in text. -/
def containsKw (s kw : String) : Bool :=
  decide (kw.data <:+: s.data)

/-- The income keyword list of _parse_message line 196. -/
def incomeKeywords : List String :=
  ["給与", "ボーナス", "賞与", "収入", "入金", "売上"]

/-- The expense category keyword groups of _parse_message lines 206-219,
in source order (first match wins). -/
def foodKeywords : List String :=
  ["食費", "食事", "昼食", "夕食", "朝食", "弁当", "レストラン"]

def transportKeywords : List String :=
  ["交通費", "電車", "バス", "タクシー", "ガソリン"]

def housingKeywords : List String :=
  ["家賃", "住居費", "賃貸"]

def utilityKeywords : List String :=
  ["光熱費", "電気", "ガス", "水道"]

def medicalKeywords : List String :=
  ["医療費", "病院", "薬"]

def entertainmentKeywords : List String :=
  ["娯楽", "映画", "ゲーム", "本"]

def shoppingKeywords : List String :=
  ["買い物", "ショッピング", "服", "雑貨"]

/-- The parsed-data dictionary returned by _parse_message. -/
structure ParsedMessage where
  transaction_type : String
  category : String
  description : String
  amount : Option ℚ
deriving DecidableEq, Repr

/-- The try body of _parse_message (src/lambda_function.py lines 177-226):
regex amount extraction (the only step that can raise, at the float call),
then income/expense keyword classification, then the category decision
chain. -/
def parseMessageBody (s : String) : Except String ParsedMessage :=
  let amountE : Except String (Option ℚ) :=
    match reSearchNum s.data with
    | none => Except.ok none
    | some m =>
        match pyFloat? (m.filter (fun c => decide (c ≠ ','))) with
        | some q => Except.ok (some q)
        | none => Except.error "ValueError: could not convert string to float"
  match amountE with
  | Except.error e => Except.error e
  | Except.ok amount =>
      if incomeKeywords.any (fun k => containsKw s k) then
        if containsKw s "給与" || containsKw s "ボーナス" || containsKw s "賞与" then
          Except.ok ⟨"収入", "給与", s, amount⟩
        else
          Except.ok ⟨"収入", "収入", s, amount⟩
      else
        let category :=
          if foodKeywords.any (fun k => containsKw s k) then "食費"
          else if transportKeywords.any (fun k => containsKw s k) then "交通費"
          else if housingKeywords.any (fun k => containsKw s k) then "住居費"
          else if utilityKeywords.any (fun k => containsKw s k) then "光熱費"
          else if medicalKeywords.any (fun k => containsKw s k) then "医療費"
          else if entertainmentKeywords.any (fun k => containsKw s k) then "娯楽費"
          else if shoppingKeywords.any (fun k => containsKw s k) then "買い物"
          else "その他"
        Except.ok ⟨"支出", category, s, amount⟩

/-- The default structured result built by the except clause of
_parse_message (src/lambda_function.py lines 230-235): expense type,
category その他, the raw text as description, no amount. -/
def parseMessageDefault (s : String) : ParsedMessage :=
  ⟨"支出", "その他", s, none⟩

/-- _parse_message (src/lambda_function.py lines 167-235): the try body,
with any exception caught and replaced by the default structured result of
lines 230-235. -/
def parse_message (s : String) : ParsedMessage :=
  match parseMessageBody s with
  | Except.ok r => r
  | Except.error _ => parseMessageDefault s

/-- Spec-side leftmost match: try the pattern at every position in order
and take the first position where it matches. -/
def specFirstNumMatch (cs : List Char) : Option (List Char) :=
  (List.range cs.length).findSome? (fun i => matchAt (cs.drop i))

/-- Spec-side income test: the text contains at least one income
keyword. -/
def specIncome (s : String) : Prop :=
  ∃ k ∈ incomeKeywords, k.data <:+: s.data

instance (s : String) : Decidable (specIncome s) := by
  unfold specIncome
  infer_instance

/-- Spec-side type classification: income iff an income keyword occurs,
otherwise expense. -/
def specType (s : String) : String :=
  if specIncome s then "収入" else "支出"

/-- Spec-side category decision tree, following the claim wording: for
income, salary when a salary/bonus keyword occurs, else generic income;
for expense, the first keyword group that matches in the fixed priority
order food, transport, housing, utilities, medical, entertainment,
shopping, defaulting to other. -/
def specCategory (s : String) : String :=
  if specIncome s then
    if ("給与".data <:+: s.data) ∨ ("ボーナス".data <:+: s.data) ∨
        ("賞与".data <:+: s.data) then "給与"
    else "収入"
  else if ∃ k ∈ foodKeywords, k.data <:+: s.data then "食費"
  else if ∃ k ∈ transportKeywords, k.data <:+: s.data then "交通費"
  else if ∃ k ∈ housingKeywords, k.data <:+: s.data then "住居費"
  else if ∃ k ∈ utilityKeywords, k.data <:+: s.data then "光熱費"
  else if ∃ k ∈ medicalKeywords, k.data <:+: s.data then "医療費"
  else if ∃ k ∈ entertainmentKeywords, k.data <:+: s.data then "娯楽費"
  else if ∃ k ∈ shoppingKeywords, k.data <:+: s.data then "買い物"
  else "その他"

/-- Spec-side amount: the leftmost pattern match with commas stripped,
parsed as a float; absent when there is no match. -/
def specAmount (s : String) : Option ℚ :=
  (specFirstNumMatch s.data).bind
    (fun m => pyFloat? (m.filter (fun c => decide (c ≠ ','))))

/-- One webhook event as read by _process_line_messages:
event.get('type'), event.get('message', {}).get('type'),
message.get('text', ''), event.get('source', {}).get('userId').
A missing nested field reads as the corresponding default. -/
structure LineEvent where
  etype : String
  messageType : String
  text : String
  userId : Option String
deriving DecidableEq, Repr

/-- Result dictionary of _process_line_messages. -/
structure ProcessResult where
  success : Bool
  processed_count : Nat
  error : Option String := none
deriving DecidableEq, Repr

/-- The event loop of _process_line_messages
(src/lambda_function.py lines 123-152): skip non-message events, skip
non-text messages, skip events with a falsy user id or message text,
otherwise parse and write; a successful write increments the counter, a
failed write is logged and skipped. writeOk gives the success flag of the
storage write attempted for the event at each position. -/
def processLoop : List LineEvent → (Nat → Bool) → Nat → Nat → Nat
  | [], _, _, acc => acc
  | e :: rest, w, i, acc =>
      if e.etype ≠ "message" then processLoop rest w (i + 1) acc
      else if e.messageType ≠ "text" then processLoop rest w (i + 1) acc
      else if e.userId.getD "" = "" ∨ e.text = "" then
        processLoop rest w (i + 1) acc
      else if w i then processLoop rest w (i + 1) (acc + 1)
      else processLoop rest w (i + 1) acc

/-- _process_line_messages (src/lambda_function.py lines 107-164): the
loop body never raises in this model, so the try returns the success
dictionary with the accumulated count. -/
def processLineMessages (events : List LineEvent) (writeOk : Nat → Bool) :
    ProcessResult :=
  ⟨true, processLoop events writeOk 0 0, none⟩

/-- Spec-side processability of one event: a text message event carrying a
truthy user id and truthy text. -/
def processableEvent (e : LineEvent) : Bool :=
  decide (e.etype = "message") && decide (e.messageType = "text") &&
  decide (¬ e.userId.getD "" = "") && decide (¬ e.text = "")

/-- Example table for the monthly aggregation witness: an income record,
an expense record, and a record with the unrecognised tag 振替, all
created in May 2023. -/
def c10tbl : Table :=
  [[("pk", DVal.str "r1"), ("created_at", DVal.str "2023-05-02T09:00:00"),
    ("transaction_type", DVal.str "収入"), ("amount", DVal.num 100)],
   [("pk", DVal.str "r2"), ("created_at", DVal.str "2023-05-03T09:00:00"),
    ("transaction_type", DVal.str "支出"), ("amount", DVal.num 30)],
   [("pk", DVal.str "r3"), ("created_at", DVal.str "2023-05-04T09:00:00"),
    ("transaction_type", DVal.str "振替"), ("amount", DVal.num 999)]]

theorem getAttr_setAttr_self (r : Item) (k : String) (v : DVal) :
    getAttr (setAttr r k v) k = some v := by
  induction r with
  | nil => simp [setAttr, getAttr]
  | cons hd tl ih =>
      obtain ⟨k', v'⟩ := hd
      by_cases h : k' = k
      · simp [setAttr, getAttr, h]
      · simp [setAttr, getAttr, h, ih]

theorem getAttr_setAttr_ne (r : Item) (k k' : String) (v : DVal) (h : k' ≠ k) :
    getAttr (setAttr r k v) k' = getAttr r k' := by
  have hk : ¬ (k = k') := fun h' => h h'.symm
  induction r with
  | nil => simp [setAttr, getAttr, hk]
  | cons hd tl ih =>
      obtain ⟨k₀, v₀⟩ := hd
      by_cases h0 : k₀ = k
      · subst h0
        simp [setAttr, getAttr, hk]
      · by_cases h1 : k₀ = k'
        · subst h1
          simp [setAttr, getAttr, h0]
        · simp [setAttr, getAttr, h0, h1, ih]

theorem applyUpdates_cons (r : Item) (k : String) (v : DVal)
    (us : List (String × DVal)) :
    applyUpdates r ((k, v) :: us) = applyUpdates (setAttr r k v) us := rfl

theorem applyUpdates_notMem (us : List (String × DVal)) (r : Item) (k : String)
    (h : k ∉ us.map Prod.fst) :
    getAttr (applyUpdates r us) k = getAttr r k := by
  induction us generalizing r with
  | nil => simp [applyUpdates]
  | cons hd tl ih =>
      obtain ⟨k₀, v₀⟩ := hd
      simp only [List.map_cons, List.mem_cons, not_or] at h
      rw [applyUpdates_cons, ih _ h.2, getAttr_setAttr_ne _ _ _ _ h.1]

theorem applyUpdates_mem_nodup (us : List (String × DVal)) (r : Item)
    (k : String) (v : DVal) (hnd : (us.map Prod.fst).Nodup) (hmem : (k, v) ∈ us) :
    getAttr (applyUpdates r us) k = some v := by
  induction us generalizing r with
  | nil => simp at hmem
  | cons hd tl ih =>
      obtain ⟨k₀, v₀⟩ := hd
      simp only [List.map_cons, List.nodup_cons] at hnd
      rcases List.mem_cons.mp hmem with heq | htl
      · cases heq
        rw [applyUpdates_cons, applyUpdates_notMem tl _ k hnd.1, getAttr_setAttr_self]
      · rw [applyUpdates_cons]
        exact ih _ hnd.2 htl

theorem updateItemSvc_item_mem (kn kv : String) (us : List (String × DVal))
    (tbl : Table) (hnd : (us.map Prod.fst).Nodup) (k : String) (v : DVal)
    (hm : (k, v) ∈ us) :
    getAttr (updateItemSvc kn kv us tbl).2 k = some v := by
  induction tbl with
  | nil => exact applyUpdates_mem_nodup us _ k v hnd hm
  | cons r rest ih =>
      by_cases h : getAttr r kn = some (DVal.str kv)
      · simp only [updateItemSvc, if_pos h]
        exact applyUpdates_mem_nodup us r k v hnd hm
      · simp only [updateItemSvc, if_neg h]
        exact ih

theorem updateItemSvc_item_key (kn kv : String) (us : List (String × DVal))
    (tbl : Table) (h : kn ∉ us.map Prod.fst) :
    getAttr (updateItemSvc kn kv us tbl).2 kn = some (DVal.str kv) := by
  induction tbl with
  | nil =>
      have := applyUpdates_notMem us [(kn, DVal.str kv)] kn h
      simp only [updateItemSvc]
      rw [this]
      simp [getAttr]
  | cons r rest ih =>
      by_cases hr : getAttr r kn = some (DVal.str kv)
      · simp only [updateItemSvc, if_pos hr]
        rw [applyUpdates_notMem us r kn h, hr]
      · simp only [updateItemSvc, if_neg hr]
        exact ih

theorem updateItemSvc_item_in_table (kn kv : String)
    (us : List (String × DVal)) (tbl : Table) :
    (updateItemSvc kn kv us tbl).2 ∈ (updateItemSvc kn kv us tbl).1 := by
  induction tbl with
  | nil => simp [updateItemSvc]
  | cons r rest ih =>
      by_cases hr : getAttr r kn = some (DVal.str kv)
      · simp [updateItemSvc, if_pos hr]
      · simp only [updateItemSvc, if_neg hr]
        exact List.mem_cons_of_mem r ih

theorem updateItemSvc_found (kn kv : String) (us : List (String × DVal)) :
    ∀ tbl : Table, (∃ R ∈ tbl, getAttr R kn = some (DVal.str kv)) →
    ((tbl.map (fun r => getAttr r kn)).Nodup) →
    ∃ pre post R₀, tbl = pre ++ R₀ :: post ∧
      getAttr R₀ kn = some (DVal.str kv) ∧
      (updateItemSvc kn kv us tbl).1 = pre ++ applyUpdates R₀ us :: post ∧
      (updateItemSvc kn kv us tbl).2 = applyUpdates R₀ us ∧
      ∀ I ∈ pre ++ post, getAttr I kn ≠ some (DVal.str kv) := by
  intro tbl
  induction tbl with
  | nil => rintro ⟨R, hR, _⟩ _; simp at hR
  | cons r rest ih =>
      rintro ⟨R, hR, hRk⟩ hnd
      simp only [List.map_cons, List.nodup_cons] at hnd
      by_cases hr : getAttr r kn = some (DVal.str kv)
      · refine ⟨[], rest, r, by simp, hr, ?_, ?_, ?_⟩
        · simp [updateItemSvc, if_pos hr]
        · simp [updateItemSvc, if_pos hr]
        · intro I hI hIk
          simp only [List.nil_append] at hI
          exact hnd.1 (List.mem_map.mpr ⟨I, hI, by rw [hIk, hr]⟩)
      · have hRrest : R ∈ rest := by
          rcases List.mem_cons.mp hR with h | h
          · exact absurd (h ▸ hRk) hr
          · exact h
        obtain ⟨pre, post, R₀, htbl, hR₀, ht, hi, hother⟩ :=
          ih ⟨R, hRrest, hRk⟩ hnd.2
        refine ⟨r :: pre, post, R₀, by rw [htbl, List.cons_append], hR₀, ?_, ?_, ?_⟩
        · simp only [updateItemSvc, if_neg hr]
          rw [ht]
          simp
        · simp only [updateItemSvc, if_neg hr]
          exact hi
        · intro I hI
          rcases List.mem_cons.mp hI with h | h
          · exact h ▸ hr
          · exact hother I h

theorem filterMap_fst_sublist (kwargs : List (String × Option DVal))
    (keyField : String) :
    ((kwargs.filterMap (fun kv =>
        if kv.1 ≠ keyField then kv.2.map (fun v => (kv.1, v)) else none)).map
      Prod.fst).Sublist (kwargs.map Prod.fst) := by
  induction kwargs with
  | nil => simp
  | cons kv rest ih =>
      obtain ⟨k, ov⟩ := kv
      by_cases hk : k ≠ keyField
      · cases ov with
        | none => simp only [List.filterMap_cons, if_pos hk, Option.map_none']
                  exact ih.trans (List.sublist_cons_self _ _)
        | some v =>
            simp only [List.filterMap_cons, if_pos hk, Option.map_some',
              List.map_cons]
            exact ih.cons₂ k
      · simp only [List.filterMap_cons, if_neg hk]
        exact ih.trans (List.sublist_cons_self _ _)

theorem mem_buildUpdates_tail (keyField : String)
    (kwargs : List (String × Option DVal)) (k₀ : String) (v₀ : DVal)
    (hmem : (k₀, v₀) ∈ kwargs.filterMap (fun kv =>
      if kv.1 ≠ keyField then kv.2.map (fun v => (kv.1, v)) else none)) :
    k₀ ≠ keyField ∧ (k₀, some v₀) ∈ kwargs := by
  rcases List.mem_filterMap.mp hmem with ⟨⟨k₁, ov⟩, hin, hf⟩
  by_cases h1 : k₁ ≠ keyField
  · rw [if_pos h1] at hf
    cases ov with
    | none => simp at hf
    | some v =>
        simp only [Option.map_some', Option.some.injEq, Prod.mk.injEq] at hf
        obtain ⟨h2, h3⟩ := hf
        subst h2
        subst h3
        exact ⟨h1, hin⟩
  · rw [if_neg h1] at hf
    simp at hf

theorem buildUpdates_mem_key (keyField ts : String)
    (kwargs : List (String × Option DVal)) (k : String)
    (hk : k ∈ (buildUpdates keyField ts kwargs).map Prod.fst) :
    k = "updated_at" ∨ (k ≠ keyField ∧ ∃ v, (k, some v) ∈ kwargs) := by
  simp only [buildUpdates, List.map_cons, List.mem_cons] at hk
  rcases hk with h | h
  · exact Or.inl h
  · right
    rcases List.mem_map.mp h with ⟨⟨k₀, v₀⟩, hmem, hfst⟩
    obtain ⟨hne, hin⟩ := mem_buildUpdates_tail keyField kwargs k₀ v₀ hmem
    cases hfst
    exact ⟨hne, v₀, hin⟩

theorem buildUpdates_nodup (keyField ts : String)
    (kwargs : List (String × Option DVal))
    (hnd : (kwargs.map Prod.fst).Nodup)
    (hup : ∀ v, ("updated_at", some v) ∉ kwargs) :
    ((buildUpdates keyField ts kwargs).map Prod.fst).Nodup := by
  simp only [buildUpdates, List.map_cons, List.nodup_cons]
  constructor
  · intro hmem
    rcases List.mem_map.mp hmem with ⟨⟨k₀, v₀⟩, hmem0, hfst⟩
    obtain ⟨hne, hin⟩ := mem_buildUpdates_tail keyField kwargs k₀ v₀ hmem0
    cases hfst
    exact hup v₀ hin
  · exact (filterMap_fst_sublist kwargs keyField).nodup hnd

theorem mem_buildUpdates_of_kwargs (keyField ts : String)
    (kwargs : List (String × Option DVal)) (k : String) (v : DVal)
    (hm : (k, some v) ∈ kwargs) (hk : k ≠ keyField) :
    (k, v) ∈ buildUpdates keyField ts kwargs := by
  simp only [buildUpdates, List.mem_cons]
  right
  exact List.mem_filterMap.mpr ⟨(k, some v), hm, by rw [if_pos hk]; rfl⟩

theorem updateOp_props (keyField : String) (tbl : Table) (ts kv : String)
    (kwargs : List (String × Option DVal))
    (hnd : (kwargs.map Prod.fst).Nodup)
    (hup : ∀ v, ("updated_at", some v) ∉ kwargs)
    (hkf : keyField ≠ "updated_at") :
    (updateOp keyField tbl ts kv kwargs none).res.success = true ∧
    getAttr (updateOp keyField tbl ts kv kwargs none).res.data keyField =
      some (DVal.str kv) ∧
    getAttr (updateOp keyField tbl ts kv kwargs none).res.data "updated_at" =
      some (DVal.str ts) ∧
    (∀ k v, (k, some v) ∈ kwargs → k ≠ keyField →
      getAttr (updateOp keyField tbl ts kv kwargs none).res.data k = some v) ∧
    (updateOp keyField tbl ts kv kwargs none).res.data ∈
      (updateOp keyField tbl ts kv kwargs none).table := by
  have hndu := buildUpdates_nodup keyField ts kwargs hnd hup
  have hkey : keyField ∉ (buildUpdates keyField ts kwargs).map Prod.fst := by
    intro hmem
    rcases buildUpdates_mem_key keyField ts kwargs keyField hmem with h | h
    · exact hkf h
    · exact h.1 rfl
  simp only [updateOp, if_pos hndu]
  refine ⟨trivial, ?_, ?_, ?_, ?_⟩
  · exact updateItemSvc_item_key keyField kv _ tbl hkey
  · exact updateItemSvc_item_mem keyField kv _ tbl hndu "updated_at"
      (DVal.str ts) (by simp [buildUpdates])
  · intro k v hm hk
    exact updateItemSvc_item_mem keyField kv _ tbl hndu k v
      (mem_buildUpdates_of_kwargs keyField ts kwargs k v hm hk)
  · exact updateItemSvc_item_in_table keyField kv _ tbl

/-- Claim C7: no write path stores an explicitly null attribute value.
The create item omits deleted_at (hardcoded to None, removed by the None
filter) and contains a binding only for fields that were supplied non-null;
the update SET list skips every null-valued kwargs entry, so supplying
deleted_at=None stores nothing, and an item without a deleted_at attribute
still has none after such an update; the soft-delete operation is the one
that writes deleted_at, and it writes a timestamp, never null. -/
theorem claim_C7 :
    (∀ pk ts tt cat desc amt,
      "deleted_at" ∉ (createItem pk ts tt cat desc amt).map Prod.fst) ∧
    (∀ pk ts tt cat desc amt k v, (k, v) ∈ createItem pk ts tt cat desc amt →
      (k, some v) ∈ createRawItem pk ts tt cat desc amt) ∧
    (∀ keyField ts kwargs, (∀ v, ("deleted_at", some v) ∉ kwargs) →
      "deleted_at" ∉ (buildUpdates keyField ts kwargs).map Prod.fst) ∧
    (∀ ts kwargs, (∀ v, ("deleted_at", some v) ∉ kwargs) →
      ∀ r : Item, getAttr r "deleted_at" = none →
        getAttr (applyUpdates r (buildUpdates "pk" ts kwargs)) "deleted_at" =
          none) ∧
    (∀ tbl ts pk,
      getAttr (dynDelete tbl ts pk true none).res.data "deleted_at" =
        some (DVal.str ts)) := by
  have hdel : ∀ keyField ts kwargs, (∀ v, ("deleted_at", some v) ∉ kwargs) →
      "deleted_at" ∉ (buildUpdates keyField ts kwargs).map Prod.fst := by
    intro keyField ts kwargs hnone hmem
    rcases buildUpdates_mem_key keyField ts kwargs "deleted_at" hmem with h | h
    · simp at h
    · obtain ⟨_, v, hv⟩ := h
      exact hnone v hv
  refine ⟨?_, ?_, hdel, ?_, ?_⟩
  · intro pk ts tt cat desc amt hmem
    rcases List.mem_map.mp hmem with ⟨⟨k, v⟩, hin, hfst⟩
    rcases List.mem_filterMap.mp hin with ⟨⟨k₁, ov⟩, hraw, hf⟩
    cases ov with
    | none => simp at hf
    | some w =>
        simp only [Option.map_some', Option.some.injEq, Prod.mk.injEq] at hf
        obtain ⟨h2, h3⟩ := hf
        subst h2
        subst h3
        cases hfst
        cases tt <;> cases cat <;> cases desc <;> cases amt <;>
          simp_all [createRawItem]
  · intro pk ts tt cat desc amt k v hmem
    rcases List.mem_filterMap.mp hmem with ⟨⟨k₁, ov⟩, hraw, hf⟩
    cases ov with
    | none => simp at hf
    | some w =>
        simp only [Option.map_some', Option.some.injEq, Prod.mk.injEq] at hf
        obtain ⟨h2, h3⟩ := hf
        subst h2
        subst h3
        exact hraw
  · intro ts kwargs hnone r hr
    rw [applyUpdates_notMem _ r "deleted_at" (hdel "pk" ts kwargs hnone), hr]
  · intro tbl ts pk
    simp only [dynDelete, if_pos rfl]
    exact updateItemSvc_item_mem "pk" pk _ tbl (by simp) "deleted_at"
      (DVal.str ts) (by simp)

/-- Witness for claim C7 at concrete inputs: a create call with every
optional field absent omits deleted_at, and an update whose kwargs are
exactly deleted_at=None builds a SET list not naming deleted_at. -/
theorem claim_C7_witness :
    ((∀ v : DVal, ("deleted_at", some v) ∉
        ([("deleted_at", (none : Option DVal))] :
          List (String × Option DVal))) ∧
      "deleted_at" ∉
        (buildUpdates "pk" "2024-12-01T00:00:00"
          [("deleted_at", (none : Option DVal))]).map Prod.fst) ∧
    "deleted_at" ∉
      (createItem "user1" "2024-12-01T00:00:00" none none none none).map
        Prod.fst := by
  refine ⟨⟨by intro v h; simp at h, ?_⟩, ?_⟩
  · exact claim_C7.2.2.1 "pk" "2024-12-01T00:00:00"
      [("deleted_at", none)] (by intro v h; simp at h)
  · exact claim_C7.1 "user1" "2024-12-01T00:00:00" none none none none

/-- Claim C9: an update call never changes the stored primary key even
when the key field appears in kwargs (it is silently ignored), sets
updated_at to the current timestamp, merges every other supplied non-null
field, and on success returns the full post-update item (which is the item
now stored in the table). Both DynamoDBModel.update and
SendLineService.update_line_transaction are covered. The kwargs key list
is duplicate-free (Python dict) and does not name updated_at (naming it
would make the SET expression reuse the document path and the call would
fail rather than succeed). -/
theorem claim_C9 (tbl : Table) (ts p : String)
    (kwargs : List (String × Option DVal))
    (hnd : (kwargs.map Prod.fst).Nodup)
    (hup : ∀ v, ("updated_at", some v) ∉ kwargs) :
    ((dynUpdate tbl ts p kwargs none).res.success = true ∧
     getAttr (dynUpdate tbl ts p kwargs none).res.data "pk" =
       some (DVal.str p) ∧
     getAttr (dynUpdate tbl ts p kwargs none).res.data "updated_at" =
       some (DVal.str ts) ∧
     (∀ k v, (k, some v) ∈ kwargs → k ≠ "pk" →
       getAttr (dynUpdate tbl ts p kwargs none).res.data k = some v) ∧
     (dynUpdate tbl ts p kwargs none).res.data ∈
       (dynUpdate tbl ts p kwargs none).table) ∧
    ((updateLineTransaction tbl ts p kwargs none).res.success = true ∧
     getAttr (updateLineTransaction tbl ts p kwargs none).res.data "lmn" =
       some (DVal.str p) ∧
     getAttr (updateLineTransaction tbl ts p kwargs none).res.data
       "updated_at" = some (DVal.str ts) ∧
     (∀ k v, (k, some v) ∈ kwargs → k ≠ "lmn" →
       getAttr (updateLineTransaction tbl ts p kwargs none).res.data k =
         some v) ∧
     (updateLineTransaction tbl ts p kwargs none).res.data ∈
       (updateLineTransaction tbl ts p kwargs none).table) :=
  ⟨updateOp_props "pk" tbl ts p kwargs hnd hup (by decide),
   updateOp_props "lmn" tbl ts p kwargs hnd hup (by decide)⟩

/-- Witness for claim C9: updating an existing item while passing the
primary-key field in kwargs leaves the stored key unchanged and merges the
other field. -/
theorem claim_C9_witness :
    (((([("pk", some (DVal.str "evil")),
         ("category", some (DVal.str "食費"))] :
          List (String × Option DVal)).map Prod.fst).Nodup) ∧
      (∀ v : DVal, ("updated_at", some v) ∉
        ([("pk", some (DVal.str "evil")),
          ("category", some (DVal.str "食費"))] :
          List (String × Option DVal)))) ∧
    ((dynUpdate [[("pk", DVal.str "u1"), ("amount", DVal.num 10)]]
        "2024-12-02T00:00:00" "u1"
        [("pk", some (DVal.str "evil")), ("category", some (DVal.str "食費"))]
        none).res.success = true ∧
     getAttr (dynUpdate [[("pk", DVal.str "u1"), ("amount", DVal.num 10)]]
        "2024-12-02T00:00:00" "u1"
        [("pk", some (DVal.str "evil")), ("category", some (DVal.str "食費"))]
        none).res.data "pk" = some (DVal.str "u1") ∧
     getAttr (dynUpdate [[("pk", DVal.str "u1"), ("amount", DVal.num 10)]]
        "2024-12-02T00:00:00" "u1"
        [("pk", some (DVal.str "evil")), ("category", some (DVal.str "食費"))]
        none).res.data "updated_at" = some (DVal.str "2024-12-02T00:00:00") ∧
     (∀ k v, (k, some v) ∈
        ([("pk", some (DVal.str "evil")),
          ("category", some (DVal.str "食費"))] :
          List (String × Option DVal)) → k ≠ "pk" →
       getAttr (dynUpdate [[("pk", DVal.str "u1"), ("amount", DVal.num 10)]]
          "2024-12-02T00:00:00" "u1"
          [("pk", some (DVal.str "evil")),
           ("category", some (DVal.str "食費"))] none).res.data k = some v) ∧
     (dynUpdate [[("pk", DVal.str "u1"), ("amount", DVal.num 10)]]
        "2024-12-02T00:00:00" "u1"
        [("pk", some (DVal.str "evil")), ("category", some (DVal.str "食費"))]
        none).res.data ∈
       (dynUpdate [[("pk", DVal.str "u1"), ("amount", DVal.num 10)]]
          "2024-12-02T00:00:00" "u1"
          [("pk", some (DVal.str "evil")),
           ("category", some (DVal.str "食費"))] none).table) :=
  ⟨⟨by decide, by intro v h; simp at h⟩,
   (claim_C9 [[("pk", DVal.str "u1"), ("amount", DVal.num 10)]]
      "2024-12-02T00:00:00" "u1"
      [("pk", some (DVal.str "evil")), ("category", some (DVal.str "食費"))]
      (by decide) (by intro v h; simp at h)).1⟩

/-- Claim C6: in a table with duplicate-free primary keys, after a
successful soft delete of the record keyed p, the default scan
(include_deleted false) returns no item keyed p, while the
include_deleted scan returns an item keyed p whose deleted_at holds the
deletion timestamp. -/
theorem claim_C6 (tbl : Table) (ts p : String) (R : Item)
    (hmem : R ∈ tbl) (hpk : getAttr R "pk" = some (DVal.str p))
    (hkeys : (tbl.map (fun r => getAttr r "pk")).Nodup) :
    (dynDelete tbl ts p true none).res.success = true ∧
    (∀ I ∈ (listAll (dynDelete tbl ts p true none).table false none).data,
      getAttr I "pk" ≠ some (DVal.str p)) ∧
    (∃ I ∈ (listAll (dynDelete tbl ts p true none).table true none).data,
      getAttr I "pk" = some (DVal.str p) ∧
      getAttr I "deleted_at" = some (DVal.str ts)) := by
  obtain ⟨pre, post, R₀, htbl, hR₀, ht, hi, hother⟩ :=
    updateItemSvc_found "pk" p [("deleted_at", DVal.str ts)] tbl
      ⟨R, hmem, hpk⟩ hkeys
  have hdataTrue :
      (dynDelete tbl ts p true none).table =
        pre ++ applyUpdates R₀ [("deleted_at", DVal.str ts)] :: post := by
    simp only [dynDelete, if_pos rfl]
    exact ht
  have hRdel : getAttr (applyUpdates R₀ [("deleted_at", DVal.str ts)])
      "deleted_at" = some (DVal.str ts) := by
    exact applyUpdates_mem_nodup _ R₀ _ _ (by simp) (by simp)
  have hRpk : getAttr (applyUpdates R₀ [("deleted_at", DVal.str ts)]) "pk" =
      some (DVal.str p) := by
    rw [applyUpdates_notMem _ R₀ "pk" (by simp)]
    exact hR₀
  have hfalse : ∀ t : Table, (listAll t false none).data =
      t.filter (fun r => decide (getAttr r "deleted_at" = none)) :=
    fun _ => rfl
  have htrue : ∀ t : Table, (listAll t true none).data = t := fun _ => rfl
  refine ⟨by simp [dynDelete], ?_, ?_⟩
  · intro I hI
    rw [hfalse, hdataTrue] at hI
    obtain ⟨hImem, hIdel⟩ := List.mem_filter.mp hI
    have hIdel' : getAttr I "deleted_at" = none := of_decide_eq_true hIdel
    rcases List.mem_append.mp hImem with hIn | hIn
    · exact hother I (List.mem_append.mpr (Or.inl hIn))
    · rcases List.mem_cons.mp hIn with hEq | hIn
      · subst hEq
        rw [hRdel] at hIdel'
        simp at hIdel'
      · exact hother I (List.mem_append.mpr (Or.inr hIn))
  · refine ⟨applyUpdates R₀ [("deleted_at", DVal.str ts)], ?_, hRpk, hRdel⟩
    rw [htrue, hdataTrue]
    simp

/-- Witness for claim C6: soft-deleting one of two records hides it from
the default scan and keeps it, stamped, in the include_deleted scan. -/
theorem claim_C6_witness :
    ([("pk", DVal.str "a"), ("amount", DVal.num 5)] ∈
        ([[("pk", DVal.str "a"), ("amount", DVal.num 5)],
          [("pk", DVal.str "b")]] : Table) ∧
      getAttr [("pk", DVal.str "a"), ("amount", DVal.num 5)] "pk" =
        some (DVal.str "a") ∧
      (([[("pk", DVal.str "a"), ("amount", DVal.num 5)],
         [("pk", DVal.str "b")]] : Table).map
        (fun r => getAttr r "pk")).Nodup) ∧
    ((dynDelete [[("pk", DVal.str "a"), ("amount", DVal.num 5)],
        [("pk", DVal.str "b")]] "2024-12-03T00:00:00" "a" true
        none).res.success = true ∧
     (∀ I ∈ (listAll (dynDelete [[("pk", DVal.str "a"), ("amount", DVal.num 5)],
          [("pk", DVal.str "b")]] "2024-12-03T00:00:00" "a" true none).table
          false none).data,
       getAttr I "pk" ≠ some (DVal.str "a")) ∧
     (∃ I ∈ (listAll (dynDelete [[("pk", DVal.str "a"), ("amount", DVal.num 5)],
          [("pk", DVal.str "b")]] "2024-12-03T00:00:00" "a" true none).table
          true none).data,
       getAttr I "pk" = some (DVal.str "a") ∧
       getAttr I "deleted_at" = some (DVal.str "2024-12-03T00:00:00"))) :=
  ⟨⟨by decide, by decide, by decide⟩,
   claim_C6 [[("pk", DVal.str "a"), ("amount", DVal.num 5)],
      [("pk", DVal.str "b")]] "2024-12-03T00:00:00" "a"
      [("pk", DVal.str "a"), ("amount", DVal.num 5)]
      (by decide) (by decide) (by decide)⟩

theorem processLoop_cons (e : LineEvent) (rest : List LineEvent)
    (w : Nat → Bool) (i acc : Nat) :
    processLoop (e :: rest) w i acc =
      if processableEvent e && w i then processLoop rest w (i + 1) (acc + 1)
      else processLoop rest w (i + 1) acc := by
  by_cases h1 : e.etype = "message"
  · by_cases h2 : e.messageType = "text"
    · by_cases h3 : e.userId.getD "" = "" ∨ e.text = ""
      · have hp : processableEvent e = false := by
          rcases h3 with h | h <;> simp [processableEvent, h]
        simp [processLoop, h1, h2, h3, hp]
      · have hp : processableEvent e = true := by
          push_neg at h3
          simp [processableEvent, h1, h2, h3.1, h3.2]
        by_cases hw : w i
        · simp [processLoop, h1, h2, h3, hp, hw]
        · simp [processLoop, h1, h2, h3, hp, hw]
    · have hp : processableEvent e = false := by simp [processableEvent, h2]
      simp [processLoop, h1, h2, hp]
  · have hp : processableEvent e = false := by simp [processableEvent, h1]
    simp [processLoop, h1, hp]

theorem processLoop_count (events : List LineEvent) (w : Nat → Bool) :
    ∀ i acc, processLoop events w i acc =
      acc + ((List.enumFrom i events).filter
        (fun p => processableEvent p.2 && w p.1)).length := by
  induction events with
  | nil => intro i acc; simp [processLoop]
  | cons e rest ih =>
      intro i acc
      have hfe : List.enumFrom i (e :: rest) =
          (i, e) :: List.enumFrom (i + 1) rest := rfl
      rw [hfe, processLoop_cons]
      simp only [List.filter_cons]
      by_cases hp : (processableEvent e && w i) = true
      · rw [if_pos hp, if_pos hp, ih (i + 1) (acc + 1), List.length_cons]
        omega
      · rw [if_neg hp, if_neg hp, ih (i + 1) acc]

/-- Claim C5: the orchestrator processes each text-message event
independently: the batch result is the success dictionary, the processed
count is exactly the number of processable events whose storage write
succeeded (an individual write failure is skipped without aborting later
events), and in particular a batch of three processable events whose
second write fails yields processed_count 2. -/
theorem claim_C5 (events : List LineEvent) (writeOk : Nat → Bool) :
    (processLineMessages events writeOk).success = true ∧
    (processLineMessages events writeOk).processed_count =
      (events.enum.filter
        (fun p => processableEvent p.2 && writeOk p.1)).length ∧
    processLineMessages
      [⟨"message", "text", "昼食 850円", some "U1"⟩,
       ⟨"message", "text", "夕食 1200円", some "U2"⟩,
       ⟨"message", "text", "給与 300000円", some "U3"⟩]
      (fun i => decide (i ≠ 1)) = ⟨true, 2, none⟩ := by
  refine ⟨rfl, ?_, ?_⟩
  · have h := processLoop_count events writeOk 0 0
    simpa [processLineMessages, List.enum] using h
  · rfl

/-- Claim C2 (evaluating the failing input): get_monthly_summary computes
datetime(year, month, 1) before its try block, so a month outside 1..12
raises ValueError past the operation boundary instead of returning a
tagged failure result, for any table state and any storage behaviour. -/
theorem claim_C2 (tbl : Table) (svcErr : Option String) :
    getMonthlySummary tbl 2023 13 svcErr =
      Except.error "ValueError: year or month out of range" := by
  simp [getMonthlySummary, validYM]

theorem totalLoop_ok (items : List Item)
    (hty : ∀ it ∈ items, ∀ s, getAttr it "amount" ≠ some (DVal.str s)) :
    ∀ acc, totalLoop items acc = Except.ok (acc + sumPresentAmounts items) := by
  induction items with
  | nil => intro acc; simp [totalLoop, sumPresentAmounts]
  | cons it rest ih =>
      intro acc
      have hrest : ∀ r ∈ rest, ∀ s, getAttr r "amount" ≠ some (DVal.str s) :=
        fun r hr => hty r (List.mem_cons_of_mem it hr)
      cases hA : getAttr it "amount" with
      | none =>
          simp only [totalLoop, hA]
          rw [ih hrest acc]
          simp [sumPresentAmounts, List.filterMap_cons, hA]
      | some v =>
          cases v with
          | str s => exact absurd hA (hty it (List.mem_cons_self it rest) s)
          | num q =>
              simp only [totalLoop, hA]
              rw [ih hrest (acc + q)]
              simp only [sumPresentAmounts, List.filterMap_cons, hA,
                List.sum_cons]
              rw [Except.ok.injEq]
              ring

/-- Claim C4: get_total_amount sums amount over exactly the records that
carry one (an absent amount contributes nothing, not zero), while the
record count is the length of the whole matched record list; the record
source is the transaction-type query when a truthy (non-empty) filter is
given and the active-records list_all otherwise (Python's
if transaction_type: also sends an empty-string filter to list_all); and
when the underlying query fails, that failure dictionary is returned
verbatim. -/
theorem claim_C4 (tbl : Table) (tt : Option String) (e : String)
    (hty : ∀ it ∈ tbl, ∀ s, getAttr it "amount" ≠ some (DVal.str s)) :
    getTotalAmount tbl tt none =
      Except.ok (TotalResult.ok
        (sumPresentAmounts (totalSource tbl tt none).data)
        (totalSource tbl tt none).data.length tt) ∧
    getTotalAmount tbl tt (some e) =
      Except.ok (TotalResult.fail (totalSource tbl tt (some e))) ∧
    (totalSource tbl tt (some e)).success = false ∧
    (∀ t, tt = some t → t ≠ "" →
      totalSource tbl tt none = queryByTransactionType tbl t none) ∧
    (tt = none ∨ tt = some "" →
      totalSource tbl tt none = listAll tbl false none) := by
  have hsucc : (totalSource tbl tt none).success = true := by
    cases tt with
    | none => rfl
    | some t =>
        by_cases ht : t = ""
        · simp [totalSource, ht]
          rfl
        · simp [totalSource, ht]
          rfl
  have hdata : ∀ it ∈ (totalSource tbl tt none).data, ∀ s,
      getAttr it "amount" ≠ some (DVal.str s) := by
    intro it hit
    apply hty
    cases tt with
    | none => exact (List.mem_filter.mp hit).1
    | some t =>
        by_cases ht : t = ""
        · rw [totalSource, if_pos ht] at hit
          exact (List.mem_filter.mp hit).1
        · rw [totalSource, if_neg ht] at hit
          exact (List.mem_filter.mp hit).1
  have hfailres : (totalSource tbl tt (some e)).success = false := by
    cases tt with
    | none => rfl
    | some t =>
        by_cases ht : t = ""
        · simp [totalSource, ht]
          rfl
        · simp [totalSource, ht]
          rfl
  refine ⟨?_, ?_, hfailres, ?_, ?_⟩
  · simp only [getTotalAmount, hsucc]
    rw [if_neg (by simp)]
    rw [totalLoop_ok _ hdata 0]
    simp
  · simp [getTotalAmount, hfailres]
  · rintro t rfl ht
    rw [totalSource, if_neg ht]
  · rintro (rfl | rfl)
    · rfl
    · rw [totalSource, if_pos rfl]

/-- Witness for claim C4 at the specification's example: records with
amounts 100, absent and 50 yield total 150 and count 3. -/
theorem claim_C4_witness :
    (∀ it ∈ ([[("pk", DVal.str "a"), ("amount", DVal.num 100)],
        [("pk", DVal.str "b")],
        [("pk", DVal.str "c"), ("amount", DVal.num 50)]] : Table),
      ∀ s, getAttr it "amount" ≠ some (DVal.str s)) ∧
    getTotalAmount [[("pk", DVal.str "a"), ("amount", DVal.num 100)],
        [("pk", DVal.str "b")],
        [("pk", DVal.str "c"), ("amount", DVal.num 50)]] none none =
      Except.ok (TotalResult.ok 150 3 none) := by
  have hty : ∀ it ∈ ([[("pk", DVal.str "a"), ("amount", DVal.num 100)],
      [("pk", DVal.str "b")],
      [("pk", DVal.str "c"), ("amount", DVal.num 50)]] : Table),
      ∀ s, getAttr it "amount" ≠ some (DVal.str s) := by
    intro it hit s h
    fin_cases hit <;> simp [getAttr] at h
  refine ⟨hty, ?_⟩
  have h := (claim_C4 [[("pk", DVal.str "a"), ("amount", DVal.num 100)],
      [("pk", DVal.str "b")],
      [("pk", DVal.str "c"), ("amount", DVal.num 50)]] none "err" hty).1
  rw [h]
  simp only [Except.ok.injEq, TotalResult.ok.injEq]
  refine ⟨?_, ?_, trivial⟩
  · have hd : (totalSource [[("pk", DVal.str "a"), ("amount", DVal.num 100)],
        [("pk", DVal.str "b")],
        [("pk", DVal.str "c"), ("amount", DVal.num 50)]] none none).data =
        [[("pk", DVal.str "a"), ("amount", DVal.num 100)],
         [("pk", DVal.str "b")],
         [("pk", DVal.str "c"), ("amount", DVal.num 50)]] := rfl
    have hfm : sumPresentAmounts
        [[("pk", DVal.str "a"), ("amount", DVal.num 100)],
         [("pk", DVal.str "b")],
         [("pk", DVal.str "c"), ("amount", DVal.num 50)]] =
        ((100 : ℚ) :: (50 : ℚ) :: []).sum := rfl
    rw [hd, hfm]
    norm_num
  · rfl

theorem bucketStep_unrecog (acc : Buckets) (r : Item)
    (h1 : ttagOf r ≠ "収入") (h2 : ttagOf r ≠ "支出") :
    bucketStep acc r = Except.ok acc := by
  cases hA : getAttr r "amount" with
  | none => simp [bucketStep, hA, h1, h2]
  | some v =>
      cases v with
      | num q => simp [bucketStep, hA, h1, h2]
      | str s =>
          by_cases hs : s = ""
          · simp [bucketStep, hA, hs, h1, h2]
          · simp [bucketStep, hA, hs, h1, h2]

theorem bucketStep_ok_noStr (acc : Buckets) (r : Item)
    (hty : ∀ s, getAttr r "amount" ≠ some (DVal.str s)) :
    ∃ acc', bucketStep acc r = Except.ok acc' := by
  cases hA : getAttr r "amount" with
  | none =>
      simp only [bucketStep, hA]
      split_ifs <;> exact ⟨_, rfl⟩
  | some v =>
      cases v with
      | str s => exact absurd hA (hty s)
      | num q =>
          simp only [bucketStep, hA]
          split_ifs <;> exact ⟨_, rfl⟩

theorem bucketStep_counts (acc acc' : Buckets) (r : Item)
    (h : bucketStep acc r = Except.ok acc')
    (hrec : ttagOf r = "収入" ∨ ttagOf r = "支出") :
    acc'.income_count + acc'.expense_count =
      acc.income_count + acc.expense_count + 1 := by
  simp only [bucketStep] at h
  split at h <;> split_ifs at h <;>
    first
      | (cases Except.ok.inj h; simp; omega)
      | (rcases hrec with ht | ht <;> simp_all)

theorem bucketsOf_cons (r : Item) (rest : List Item) (acc : Buckets) :
    bucketsOf (r :: rest) acc =
      match bucketStep acc r with
      | Except.error e => Except.error e
      | Except.ok acc' => bucketsOf rest acc' := rfl

theorem bucketsOf_append (l1 l2 : List Item) :
    ∀ acc, bucketsOf (l1 ++ l2) acc =
      (bucketsOf l1 acc).bind (fun b => bucketsOf l2 b) := by
  induction l1 with
  | nil => intro acc; simp [bucketsOf, Except.bind]
  | cons r rest ih =>
      intro acc
      rw [List.cons_append, bucketsOf_cons, bucketsOf_cons]
      cases hS : bucketStep acc r with
      | error e => rfl
      | ok acc' => exact ih acc'

theorem bucketsOf_ok_noStr (l : List Item)
    (hty : ∀ r ∈ l, ∀ s, getAttr r "amount" ≠ some (DVal.str s)) :
    ∀ acc, ∃ b, bucketsOf l acc = Except.ok b := by
  induction l with
  | nil => intro acc; exact ⟨acc, rfl⟩
  | cons r rest ih =>
      intro acc
      obtain ⟨acc', hstep⟩ :=
        bucketStep_ok_noStr acc r (hty r (List.mem_cons_self r rest))
      obtain ⟨b, hb⟩ := ih (fun x hx => hty x (List.mem_cons_of_mem r hx)) acc'
      refine ⟨b, ?_⟩
      rw [bucketsOf_cons, hstep]
      exact hb

theorem bucketsOf_count (l : List Item) :
    ∀ acc b, bucketsOf l acc = Except.ok b →
      b.income_count + b.expense_count ≤
        acc.income_count + acc.expense_count + l.length ∧
      (b.income_count + b.expense_count =
          acc.income_count + acc.expense_count + l.length ↔
        ∀ r ∈ l, ttagOf r = "収入" ∨ ttagOf r = "支出") := by
  induction l with
  | nil =>
      intro acc b h
      rw [bucketsOf] at h
      cases h
      simp
  | cons r rest ih =>
      intro acc b h
      rw [bucketsOf_cons] at h
      cases hS : bucketStep acc r with
      | error e => simp [hS] at h
      | ok acc' =>
          simp only [hS] at h
          obtain ⟨hle, hiff⟩ := ih acc' b h
          by_cases hrec : ttagOf r = "収入" ∨ ttagOf r = "支出"
          · have hcnt := bucketStep_counts acc acc' r hS hrec
            constructor
            · simp only [List.length_cons]
              omega
            · rw [List.forall_mem_cons]
              constructor
              · intro heq
                refine ⟨hrec, hiff.mp ?_⟩
                simp only [List.length_cons] at heq
                omega
              · intro ⟨_, hall⟩
                have := hiff.mpr hall
                simp only [List.length_cons]
                omega
          · push_neg at hrec
            have hacc : acc' = acc := by
              have hu := bucketStep_unrecog acc r hrec.1 hrec.2
              rw [hu] at hS
              cases hS
              rfl
            subst hacc
            constructor
            · simp only [List.length_cons]
              omega
            · rw [List.forall_mem_cons]
              constructor
              · intro heq
                exfalso
                simp only [List.length_cons] at heq
                omega
              · intro h2
                exfalso
                rcases h2.1 with ht | ht
                · exact hrec.1 ht
                · exact hrec.2 ht

theorem getMonthlySummary_ok (tbl : Table) (y m : Nat)
    (h1 : 1 ≤ y) (h2 : y ≤ 9999) (h3 : 1 ≤ m) (h4 : m ≤ 12)
    (h5 : m = 12 → y + 1 ≤ 9999)
    (b : Buckets)
    (hb : bucketsOf (monthlyRecords tbl y m) ⟨0, 0, 0, 0⟩ = Except.ok b) :
    getMonthlySummary tbl y m none = Except.ok (MonthlyResult.ok
      ⟨y, m, b.income_total, b.expense_total,
       b.income_total - b.expense_total, b.income_count, b.expense_count,
       (monthlyRecords tbl y m).length⟩) := by
  have hv : validYM y m = true := by
    simp only [validYM, Bool.and_eq_true, decide_eq_true_eq]
    omega
  have hv2 : ¬ (m = 12 ∧ ¬ validYM (y + 1) 1 = true) := by
    rintro ⟨h12, hvv⟩
    apply hvv
    simp only [validYM, Bool.and_eq_true, decide_eq_true_eq]
    have := h5 h12
    omega
  rw [getMonthlySummary, if_neg (by simp [hv]), if_neg hv2]
  have hrec : tbl.filter (monthlyMatch (isoOfFirst y m) (monthStopIso y m)) =
      monthlyRecords tbl y m := rfl
  rw [hrec]
  simp only [hb]

theorem monthlyMatch_iff (startIso stopIso : String) (r : Item) :
    monthlyMatch startIso stopIso r = true ↔
      ((∃ c, getAttr r "created_at" = some (DVal.str c) ∧
        charListLe startIso.data c.data = true ∧
        charListLe c.data stopIso.data = true) ∧
       getAttr r "deleted_at" = none) := by
  rw [monthlyMatch]
  cases hC : getAttr r "created_at" with
  | none => simp
  | some v =>
      cases v with
      | num q => simp
      | str c => simp [Bool.and_eq_true]

/-- Claim C1 (amended): get_monthly_summary selects exactly the active
records (no deleted_at attribute) whose created_at lies in the closed
interval from the first instant of the month to the first instant of the
next month, both ends included — the BETWEEN filter is inclusive, so a
record created exactly at the first instant of month M+1 is also counted;
for month = 12 the interval end is January 1 of year + 1. total_records is
the number of selected records. -/
theorem claim_C1 (tbl : Table) (y m : Nat)
    (h1 : 1 ≤ y) (h2 : y ≤ 9999) (h3 : 1 ≤ m) (h4 : m ≤ 12)
    (h5 : m = 12 → y + 1 ≤ 9999)
    (hty : ∀ r ∈ tbl, ∀ s, getAttr r "amount" ≠ some (DVal.str s)) :
    ∃ s, getMonthlySummary tbl y m none = Except.ok (MonthlyResult.ok s) ∧
      s.total_records = (monthlyRecords tbl y m).length ∧
      ∀ r, r ∈ monthlyRecords tbl y m ↔
        (r ∈ tbl ∧ getAttr r "deleted_at" = none ∧
         ∃ c, getAttr r "created_at" = some (DVal.str c) ∧
           charListLe (isoOfFirst y m).data c.data = true ∧
           charListLe c.data
             (if m = 12 then isoOfFirst (y + 1) 1
              else isoOfFirst y (m + 1)).data = true) := by
  have htyrec : ∀ r ∈ monthlyRecords tbl y m, ∀ s,
      getAttr r "amount" ≠ some (DVal.str s) :=
    fun r hr => hty r (List.mem_filter.mp hr).1
  obtain ⟨b, hb⟩ := bucketsOf_ok_noStr _ htyrec ⟨0, 0, 0, 0⟩
  refine ⟨_, getMonthlySummary_ok tbl y m h1 h2 h3 h4 h5 b hb, rfl, ?_⟩
  intro r
  rw [monthlyRecords, List.mem_filter, monthlyMatch_iff]
  constructor
  · rintro ⟨hmem, ⟨c, hc, hle1, hle2⟩, hdel⟩
    exact ⟨hmem, hdel, c, hc, hle1, by rwa [monthStopIso] at hle2⟩
  · rintro ⟨hmem, hdel, c, hc, hle1, hle2⟩
    exact ⟨hmem, ⟨⟨c, hc, hle1, by rwa [monthStopIso]⟩, hdel⟩⟩

/-- Counterexample to claim C1 as stated: the claim asserts an exclusive
interval end, but the BETWEEN filter is inclusive. A record whose
created_at is exactly the first instant of June (the interval end for a
May summary) passes the scan filter, fails the half-open test written from
the claim, and is counted in May's total_records. -/
theorem claim_C1_counterexample :
    monthlyMatch (isoOfFirst 2023 5) (monthStopIso 2023 5)
      [("pk", DVal.str "r1"),
       ("created_at", DVal.str "2023-06-01T00:00:00")] = true ∧
    claimHalfOpen (isoOfFirst 2023 5) (monthStopIso 2023 5)
      [("pk", DVal.str "r1"),
       ("created_at", DVal.str "2023-06-01T00:00:00")] = false ∧
    monthStopIso 2023 5 = "2023-06-01T00:00:00" ∧
    getMonthlySummary
      [[("pk", DVal.str "r1"),
        ("created_at", DVal.str "2023-06-01T00:00:00")]] 2023 5 none =
      Except.ok (MonthlyResult.ok ⟨2023, 5, 0, 0, 0, 0, 0, 1⟩) := by
  refine ⟨rfl, rfl, rfl, ?_⟩
  have hb : bucketsOf (monthlyRecords
      [[("pk", DVal.str "r1"),
        ("created_at", DVal.str "2023-06-01T00:00:00")]] 2023 5)
      ⟨0, 0, 0, 0⟩ = Except.ok ⟨0, 0, 0, 0⟩ := rfl
  have h := getMonthlySummary_ok
    [[("pk", DVal.str "r1"), ("created_at", DVal.str "2023-06-01T00:00:00")]]
    2023 5 (by omega) (by omega) (by omega) (by omega) (by omega)
    ⟨0, 0, 0, 0⟩ hb
  rw [h]
  have hlen : (monthlyRecords
      [[("pk", DVal.str "r1"),
        ("created_at", DVal.str "2023-06-01T00:00:00")]] 2023 5).length = 1 :=
    rfl
  simp only [Except.ok.injEq, MonthlyResult.ok.injEq,
    MonthlySummaryOk.mk.injEq, hlen]
  norm_num

/-- Witness for claim C1 on a concrete table: one record created at the
last instant of May, one at the first instant of May, one deleted. -/
theorem claim_C1_witness :
    (1 ≤ 2023 ∧ 2023 ≤ 9999 ∧ 1 ≤ 5 ∧ 5 ≤ 12 ∧ (5 = 12 → 2023 + 1 ≤ 9999) ∧
      (∀ r ∈ ([[("pk", DVal.str "r1"),
          ("created_at", DVal.str "2023-05-31T23:59:59.999999")],
         [("pk", DVal.str "r2"),
          ("created_at", DVal.str "2023-05-01T00:00:00")],
         [("pk", DVal.str "r3"),
          ("created_at", DVal.str "2023-05-10T12:00:00"),
          ("deleted_at", DVal.str "2023-05-11T00:00:00")]] : Table),
        ∀ s, getAttr r "amount" ≠ some (DVal.str s))) ∧
    (∃ s, getMonthlySummary
        [[("pk", DVal.str "r1"),
          ("created_at", DVal.str "2023-05-31T23:59:59.999999")],
         [("pk", DVal.str "r2"),
          ("created_at", DVal.str "2023-05-01T00:00:00")],
         [("pk", DVal.str "r3"),
          ("created_at", DVal.str "2023-05-10T12:00:00"),
          ("deleted_at", DVal.str "2023-05-11T00:00:00")]] 2023 5 none =
        Except.ok (MonthlyResult.ok s) ∧
      s.total_records = (monthlyRecords
        [[("pk", DVal.str "r1"),
          ("created_at", DVal.str "2023-05-31T23:59:59.999999")],
         [("pk", DVal.str "r2"),
          ("created_at", DVal.str "2023-05-01T00:00:00")],
         [("pk", DVal.str "r3"),
          ("created_at", DVal.str "2023-05-10T12:00:00"),
          ("deleted_at", DVal.str "2023-05-11T00:00:00")]] 2023 5).length ∧
      ∀ r, r ∈ monthlyRecords
        [[("pk", DVal.str "r1"),
          ("created_at", DVal.str "2023-05-31T23:59:59.999999")],
         [("pk", DVal.str "r2"),
          ("created_at", DVal.str "2023-05-01T00:00:00")],
         [("pk", DVal.str "r3"),
          ("created_at", DVal.str "2023-05-10T12:00:00"),
          ("deleted_at", DVal.str "2023-05-11T00:00:00")]] 2023 5 ↔
        (r ∈ ([[("pk", DVal.str "r1"),
            ("created_at", DVal.str "2023-05-31T23:59:59.999999")],
           [("pk", DVal.str "r2"),
            ("created_at", DVal.str "2023-05-01T00:00:00")],
           [("pk", DVal.str "r3"),
            ("created_at", DVal.str "2023-05-10T12:00:00"),
            ("deleted_at", DVal.str "2023-05-11T00:00:00")]] : Table) ∧
         getAttr r "deleted_at" = none ∧
         ∃ c, getAttr r "created_at" = some (DVal.str c) ∧
           charListLe (isoOfFirst 2023 5).data c.data = true ∧
           charListLe c.data
             (if 5 = 12 then isoOfFirst (2023 + 1) 1
              else isoOfFirst 2023 (5 + 1)).data = true)) := by
  have hty : ∀ r ∈ ([[("pk", DVal.str "r1"),
      ("created_at", DVal.str "2023-05-31T23:59:59.999999")],
     [("pk", DVal.str "r2"), ("created_at", DVal.str "2023-05-01T00:00:00")],
     [("pk", DVal.str "r3"),
      ("created_at", DVal.str "2023-05-10T12:00:00"),
      ("deleted_at", DVal.str "2023-05-11T00:00:00")]] : Table),
      ∀ s, getAttr r "amount" ≠ some (DVal.str s) := by
    intro r hr s h
    fin_cases hr <;> simp [getAttr] at h
  exact ⟨⟨by omega, by omega, by omega, by omega, by omega, hty⟩,
    claim_C1 _ 2023 5 (by omega) (by omega) (by omega) (by omega)
      (by omega) hty⟩

/-- Claim C10: a matched record whose transaction_type is neither 収入 nor
支出 is counted in total_records but in neither bucket: removing it leaves
income_total, expense_total, income_count and expense_count unchanged
while total_records drops by one; hence income_count + expense_count is at
most total_records, with equality exactly when every matched record
carries one of the two recognised tags. -/
theorem claim_C10 (tbl : Table) (y m : Nat)
    (h1 : 1 ≤ y) (h2 : y ≤ 9999) (h3 : 1 ≤ m) (h4 : m ≤ 12)
    (h5 : m = 12 → y + 1 ≤ 9999)
    (hty : ∀ r ∈ tbl, ∀ s, getAttr r "amount" ≠ some (DVal.str s)) :
    ∃ s, getMonthlySummary tbl y m none = Except.ok (MonthlyResult.ok s) ∧
      s.income_count + s.expense_count ≤ s.total_records ∧
      (s.income_count + s.expense_count = s.total_records ↔
        ∀ r ∈ monthlyRecords tbl y m,
          ttagOf r = "収入" ∨ ttagOf r = "支出") ∧
      (∀ pre post r, monthlyRecords tbl y m = pre ++ r :: post →
        ttagOf r ≠ "収入" → ttagOf r ≠ "支出" →
        bucketsOf (pre ++ post) ⟨0, 0, 0, 0⟩ = Except.ok
          ⟨s.income_total, s.expense_total,
           s.income_count, s.expense_count⟩ ∧
        s.total_records = (pre ++ post).length + 1) := by
  have htyrec : ∀ r ∈ monthlyRecords tbl y m, ∀ s,
      getAttr r "amount" ≠ some (DVal.str s) :=
    fun r hr => hty r (List.mem_filter.mp hr).1
  obtain ⟨b, hb⟩ := bucketsOf_ok_noStr _ htyrec ⟨0, 0, 0, 0⟩
  obtain ⟨hle, hiff⟩ := bucketsOf_count (monthlyRecords tbl y m) ⟨0, 0, 0, 0⟩ b hb
  refine ⟨_, getMonthlySummary_ok tbl y m h1 h2 h3 h4 h5 b hb, ?_, ?_, ?_⟩
  · simpa using hle
  · simpa using hiff
  · intro pre post r heq hn1 hn2
    rw [heq] at hb
    rw [bucketsOf_append] at hb
    cases hpre : bucketsOf pre ⟨0, 0, 0, 0⟩ with
    | error e => rw [hpre] at hb; simp [Except.bind] at hb
    | ok b1 =>
        rw [hpre] at hb
        simp only [Except.bind] at hb
        rw [bucketsOf_cons, bucketStep_unrecog b1 r hn1 hn2] at hb
        constructor
        · rw [bucketsOf_append, hpre]
          simpa [Except.bind] using hb
        · show (monthlyRecords tbl y m).length = (pre ++ post).length + 1
          rw [heq]
          simp only [List.length_append, List.length_cons]
          omega

/-- Witness for claim C10 on a concrete May 2023 table: the 振替 record is
in total_records (3) but in neither bucket (counts 1 and 1). -/
theorem claim_C10_witness :
    (1 ≤ 2023 ∧ 2023 ≤ 9999 ∧ 1 ≤ 5 ∧ 5 ≤ 12 ∧ (5 = 12 → 2023 + 1 ≤ 9999) ∧
      (∀ r ∈ c10tbl, ∀ s, getAttr r "amount" ≠ some (DVal.str s))) ∧
    (∃ s, getMonthlySummary c10tbl 2023 5 none =
        Except.ok (MonthlyResult.ok s) ∧
      s.income_count + s.expense_count ≤ s.total_records ∧
      (s.income_count + s.expense_count = s.total_records ↔
        ∀ r ∈ monthlyRecords c10tbl 2023 5,
          ttagOf r = "収入" ∨ ttagOf r = "支出") ∧
      (∀ pre post r, monthlyRecords c10tbl 2023 5 = pre ++ r :: post →
        ttagOf r ≠ "収入" → ttagOf r ≠ "支出" →
        bucketsOf (pre ++ post) ⟨0, 0, 0, 0⟩ = Except.ok
          ⟨s.income_total, s.expense_total,
           s.income_count, s.expense_count⟩ ∧
        s.total_records = (pre ++ post).length + 1)) := by
  have hty : ∀ r ∈ c10tbl, ∀ s, getAttr r "amount" ≠ some (DVal.str s) := by
    intro r hr s h
    simp only [c10tbl, List.mem_cons, List.not_mem_nil, or_false] at hr
    rcases hr with rfl | rfl | rfl <;> simp [getAttr] at h
  exact ⟨⟨by omega, by omega, by omega, by omega, by omega, hty⟩,
    claim_C10 c10tbl 2023 5 (by omega) (by omega) (by omega) (by omega)
      (by omega) hty⟩

theorem all_takeWhile (p : Char → Bool) (l : List Char) :
    (l.takeWhile p).all p = true := by
  induction l with
  | nil => rfl
  | cons c rest ih =>
      by_cases hc : p c
      · simp [List.takeWhile_cons, hc, ih]
      · simp [List.takeWhile_cons, hc]

theorem takeWhile_append_all (p : Char → Bool) (A B : List Char)
    (h : A.all p = true) : (A ++ B).takeWhile p = A ++ B.takeWhile p := by
  induction A with
  | nil => simp
  | cons c rest ih =>
      simp only [List.all_cons, Bool.and_eq_true] at h
      simp [List.takeWhile_cons, h.1, ih h.2]

theorem dropWhile_append_all (p : Char → Bool) (A B : List Char)
    (h : A.all p = true) : (A ++ B).dropWhile p = B.dropWhile p := by
  induction A with
  | nil => simp
  | cons c rest ih =>
      simp only [List.all_cons, Bool.and_eq_true] at h
      simp [List.dropWhile_cons, h.1, ih h.2]

theorem isDigit_ne_comma (c : Char) (h : pyIsDigit c = true) : c ≠ ',' := by
  intro hc
  subst hc
  exact absurd h (by decide)

theorem isDigit_ne_dot (c : Char) (h : pyIsDigit c = true) : c ≠ '.' := by
  intro hc
  subst hc
  exact absurd h (by decide)

theorem takeGroups_cons_pos (a b c : Char) (rest : List Char)
    (hd : (pyIsDigit a && pyIsDigit b && pyIsDigit c) = true) :
    takeGroups (',' :: a :: b :: c :: rest) =
      (',' :: a :: b :: c :: (takeGroups rest).1, (takeGroups rest).2) := by
  show (if pyIsDigit a && pyIsDigit b && pyIsDigit c then
      (',' :: a :: b :: c :: (takeGroups rest).1, (takeGroups rest).2)
    else ([], ',' :: a :: b :: c :: rest)) = _
  rw [if_pos hd]

theorem takeGroups_cons_neg (a b c : Char) (rest : List Char)
    (hd : ¬ (pyIsDigit a && pyIsDigit b && pyIsDigit c) = true) :
    takeGroups (',' :: a :: b :: c :: rest) =
      ([], ',' :: a :: b :: c :: rest) := by
  show (if pyIsDigit a && pyIsDigit b && pyIsDigit c then
      (',' :: a :: b :: c :: (takeGroups rest).1, (takeGroups rest).2)
    else ([], ',' :: a :: b :: c :: rest)) = _
  rw [if_neg hd]

theorem takeGroups_filter_digits : ∀ l : List Char,
    (((takeGroups l).1.filter (fun c => decide (c ≠ ','))).all
      pyIsDigit) = true := by
  intro l
  induction l using takeGroups.induct with
  | case1 a b c rest hd ih =>
      rw [takeGroups_cons_pos a b c rest hd]
      have hd' := hd
      simp only [Bool.and_eq_true] at hd'
      obtain ⟨⟨ha, hb⟩, hc⟩ := hd'
      have ha' := isDigit_ne_comma a ha
      have hb' := isDigit_ne_comma b hb
      have hc' := isDigit_ne_comma c hc
      simp [List.filter_cons, ha', hb', hc', ha, hb, hc, ih]
      intro x hx
      by_cases hcomma : x = ','
      · exact Or.inl hcomma
      · right
        have hmem : x ∈ (takeGroups rest).1.filter (fun c => decide (c ≠ ',')) :=
          List.mem_filter.mpr ⟨hx, by simp [hcomma]⟩
        exact List.all_eq_true.mp ih x hmem
  | case2 a b c rest hd =>
      rw [takeGroups_cons_neg a b c rest hd]
      simp
  | case3 l hl =>
      rw [takeGroups.eq_def]
      split
      · rename_i a b c rest
        exact absurd rfl (hl a b c rest)
      · simp

theorem takeFrac_cases (l : List Char) :
    takeFrac l = [] ∨ ∃ fs, takeFrac l = '.' :: fs ∧ fs ≠ [] ∧
      fs.all pyIsDigit = true := by
  cases l with
  | nil => exact Or.inl rfl
  | cons c rest =>
      by_cases hc : c = '.'
      · subst hc
        by_cases hds : (rest.takeWhile pyIsDigit).isEmpty
        · left
          simp [takeFrac, hds]
        · right
          refine ⟨rest.takeWhile pyIsDigit, ?_, ?_, all_takeWhile _ _⟩
          · simp [takeFrac, hds]
          · intro h
            rw [h] at hds
            simp at hds
      · left
        simp [takeFrac, hc]

theorem takeWhile_all_eq (p : Char → Bool) (l : List Char)
    (h : l.all p = true) : l.takeWhile p = l := by
  induction l with
  | nil => rfl
  | cons c rest ih =>
      simp only [List.all_cons, Bool.and_eq_true] at h
      simp [List.takeWhile_cons, h.1, ih h.2]

theorem dropWhile_all_eq (p : Char → Bool) (l : List Char)
    (h : l.all p = true) : l.dropWhile p = [] := by
  induction l with
  | nil => rfl
  | cons c rest ih =>
      simp only [List.all_cons, Bool.and_eq_true] at h
      simp [List.dropWhile_cons, h.1, ih h.2]

theorem matchAt_some_eq (l : List Char) (m : List Char)
    (h : matchAt l = some m) :
    (l.takeWhile pyIsDigit).isEmpty = false ∧
    m = l.takeWhile pyIsDigit ++
      (takeGroups (l.dropWhile pyIsDigit)).1 ++
      takeFrac (takeGroups (l.dropWhile pyIsDigit)).2 := by
  by_cases hds : (l.takeWhile pyIsDigit).isEmpty
  · rw [matchAt] at h
    simp only [hds, if_pos] at h
    cases h
  · rw [matchAt] at h
    simp only [hds, if_neg, Bool.false_eq_true, not_false_eq_true] at h
    simp only [Option.some.injEq] at h
    exact ⟨by simpa using hds, h.symm⟩

theorem pyFloat?_strip_matchAt (l m : List Char) (h : matchAt l = some m) :
    ∃ q, pyFloat? (m.filter (fun c => decide (c ≠ ','))) = some q := by
  obtain ⟨hne, hm⟩ := matchAt_some_eq l m h
  subst hm
  have hds : (l.takeWhile pyIsDigit).all pyIsDigit = true :=
    all_takeWhile _ _
  have hgsD : (((takeGroups (l.dropWhile pyIsDigit)).1.filter
      (fun c => decide (c ≠ ','))).all pyIsDigit) = true :=
    takeGroups_filter_digits _
  have hdsfil : (l.takeWhile pyIsDigit).filter (fun c => decide (c ≠ ',')) =
      l.takeWhile pyIsDigit := by
    apply List.filter_eq_self.mpr
    intro a ha
    have : pyIsDigit a = true := List.all_eq_true.mp hds a ha
    simp [isDigit_ne_comma a this]
  have hAall : ((l.takeWhile pyIsDigit ++
      (takeGroups (l.dropWhile pyIsDigit)).1.filter
        (fun c => decide (c ≠ ','))).all pyIsDigit) = true := by
    rw [List.all_append, hds, hgsD]
    rfl
  have hAne : (l.takeWhile pyIsDigit ++
      (takeGroups (l.dropWhile pyIsDigit)).1.filter
        (fun c => decide (c ≠ ','))).isEmpty = false := by
    cases hE : l.takeWhile pyIsDigit with
    | nil => rw [hE] at hne; simp at hne
    | cons x xs => simp
  rcases takeFrac_cases (takeGroups (l.dropWhile pyIsDigit)).2 with
    hfr | ⟨fs, hfr, hfsne, hfsall⟩
  · rw [hfr]
    rw [List.append_nil, List.filter_append, hdsfil]
    simp only [pyFloat?, dropWhile_all_eq _ _ hAall, takeWhile_all_eq _ _ hAall]
    rw [if_neg (by rw [hAne]; exact Bool.false_ne_true)]
    exact ⟨_, rfl⟩
  · rw [hfr]
    rw [List.filter_append, List.filter_append, hdsfil]
    have hfrfil : ('.' :: fs).filter (fun c => decide (c ≠ ',')) =
        '.' :: fs := by
      apply List.filter_eq_self.mpr
      intro a ha
      rcases List.mem_cons.mp ha with rfl | ha
      · simp
      · have : pyIsDigit a = true := List.all_eq_true.mp hfsall a ha
        simp [isDigit_ne_comma a this]
    rw [hfrfil]
    have hdot : pyIsDigit '.' = false := rfl
    have htw : ((l.takeWhile pyIsDigit ++
        (takeGroups (l.dropWhile pyIsDigit)).1.filter
          (fun c => decide (c ≠ ','))) ++ '.' :: fs).takeWhile pyIsDigit =
        l.takeWhile pyIsDigit ++
          (takeGroups (l.dropWhile pyIsDigit)).1.filter
            (fun c => decide (c ≠ ',')) := by
      rw [takeWhile_append_all _ _ _ hAall]
      simp [List.takeWhile_cons, hdot]
    have hdw : ((l.takeWhile pyIsDigit ++
        (takeGroups (l.dropWhile pyIsDigit)).1.filter
          (fun c => decide (c ≠ ','))) ++ '.' :: fs).dropWhile pyIsDigit =
        '.' :: fs := by
      rw [dropWhile_append_all _ _ _ hAall]
      simp [List.dropWhile_cons, hdot]
    simp only [pyFloat?, htw, hdw]
    rw [if_pos (by rw [hfsall, hAne]; rfl)]
    exact ⟨_, rfl⟩

theorem reSearchNum_cons (c : Char) (rest : List Char) :
    reSearchNum (c :: rest) =
      match matchAt (c :: rest) with
      | some m => some m
      | none => reSearchNum rest := rfl

theorem reSearchNum_matchAt (cs : List Char) (m : List Char)
    (h : reSearchNum cs = some m) : ∃ l, matchAt l = some m := by
  induction cs with
  | nil => simp [reSearchNum] at h
  | cons c rest ih =>
      rw [reSearchNum_cons] at h
      cases hA : matchAt (c :: rest) with
      | some m' =>
          rw [hA] at h
          simp only [Option.some.injEq] at h
          exact ⟨c :: rest, by rw [hA, h]⟩
      | none =>
          rw [hA] at h
          exact ih h

theorem reSearchNum_eq_spec (cs : List Char) :
    reSearchNum cs = specFirstNumMatch cs := by
  induction cs with
  | nil => rfl
  | cons c rest ih =>
      rw [reSearchNum_cons, specFirstNumMatch]
      simp only [List.length_cons, List.range_succ_eq_map,
        List.findSome?_cons, List.drop_zero]
      cases hA : matchAt (c :: rest) with
      | some m => rfl
      | none =>
          rw [List.findSome?_map]
          have hfun : ((fun i => matchAt ((c :: rest).drop i)) ∘ Nat.succ) =
              (fun i => matchAt (rest.drop i)) := by
            funext i
            simp [List.drop_succ_cons]
          rw [hfun]
          exact ih

theorem anyContains_iff (s : String) (ks : List String) :
    (ks.any (fun k => containsKw s k) = true) ↔
      ∃ k ∈ ks, k.data <:+: s.data := by
  simp [containsKw, List.any_eq_true]

/-- The try body of _parse_message evaluates, for every input, to the
structured result described by the specification-side classification and
numeric-extraction functions; in particular the float conversion never
fails on a string produced by the amount pattern. -/
theorem parseMessageBody_eq (s : String) :
    parseMessageBody s =
      Except.ok ⟨specType s, specCategory s, s, specAmount s⟩ := by
  have hA : (match reSearchNum s.data with
      | none => Except.ok (none : Option ℚ)
      | some m =>
          match pyFloat? (m.filter (fun c => decide (c ≠ ','))) with
          | some q => Except.ok (some q)
          | none => Except.error
              "ValueError: could not convert string to float") =
      Except.ok (specAmount s) := by
    cases hm : reSearchNum s.data with
    | none =>
        rw [specAmount, ← reSearchNum_eq_spec, hm]
        rfl
    | some m =>
        obtain ⟨l, hl⟩ := reSearchNum_matchAt s.data m hm
        obtain ⟨q, hq⟩ := pyFloat?_strip_matchAt l m hl
        rw [specAmount, ← reSearchNum_eq_spec, hm]
        simp only [hm, hq, Option.bind]
  simp only [parseMessageBody, hA]
  by_cases hInc : specIncome s
  · have hb : incomeKeywords.any (fun k => containsKw s k) = true :=
      (anyContains_iff s incomeKeywords).mpr hInc
    rw [if_pos hb]
    by_cases hsal : ("給与".data <:+: s.data) ∨ ("ボーナス".data <:+: s.data) ∨
        ("賞与".data <:+: s.data)
    · have hbs : (containsKw s "給与" || containsKw s "ボーナス" ||
          containsKw s "賞与") = true := by
        simp only [containsKw, Bool.or_eq_true, decide_eq_true_eq]
        tauto
      rw [if_pos hbs, specType, if_pos hInc, specCategory, if_pos hInc,
        if_pos hsal]
    · have hbs : ¬ ((containsKw s "給与" || containsKw s "ボーナス" ||
          containsKw s "賞与") = true) := by
        simp only [containsKw, Bool.or_eq_true, decide_eq_true_eq]
        tauto
      rw [if_neg hbs, specType, if_pos hInc, specCategory, if_pos hInc,
        if_neg hsal]
  · have hb : ¬ (incomeKeywords.any (fun k => containsKw s k) = true) := by
      rw [anyContains_iff]
      exact hInc
    rw [if_neg hb, specType, if_neg hInc, specCategory, if_neg hInc]
    refine congrArg Except.ok ?_
    refine congrArg (fun cat => ParsedMessage.mk "支出" cat s (specAmount s)) ?_
    refine if_congr (anyContains_iff s foodKeywords) rfl ?_
    refine if_congr (anyContains_iff s transportKeywords) rfl ?_
    refine if_congr (anyContains_iff s housingKeywords) rfl ?_
    refine if_congr (anyContains_iff s utilityKeywords) rfl ?_
    refine if_congr (anyContains_iff s medicalKeywords) rfl ?_
    refine if_congr (anyContains_iff s entertainmentKeywords) rfl ?_
    exact if_congr (anyContains_iff s shoppingKeywords) rfl rfl

/-- Claim C3: for every input string, the parser returns exactly the
result of the specified algorithm: the amount is the leftmost substring
matching the thousands-separated decimal pattern, commas stripped and
parsed as a number, absent when no substring matches; the type is income
iff one of the six income keywords occurs, else expense; the category
follows the fixed decision tree (salary keywords, generic income, then the
seven expense groups in priority order, defaulting to その他); the
description is the raw input verbatim. -/
theorem claim_C3 (s : String) :
    parse_message s = ⟨specType s, specCategory s, s, specAmount s⟩ := by
  rw [parse_message, parseMessageBody_eq s]

/-- Claim C8: the parser never raises: for every input string, including
the empty string, the try body already returns a value (the float
conversion cannot fail on a string matched by the amount pattern), and
the except clause — were it ever reached — returns the default structured
result: expense, category その他, the raw text as description, amount
absent. -/
theorem claim_C8 (s : String) :
    (∃ r, parseMessageBody s = Except.ok r ∧ parse_message s = r) ∧
    parseMessageDefault s = ⟨"支出", "その他", s, none⟩ := by
  constructor
  · exact ⟨⟨specType s, specCategory s, s, specAmount s⟩,
      parseMessageBody_eq s, by rw [parse_message, parseMessageBody_eq s]⟩
  · rfl

end LambdaMoney
